import Mathlib

/-!
# Crash-safe configuration file I/O (`jsonio`, `yamlio`, `tomlio`)

A shallow embedding of the `Load` / `Save` functions of the three format
packages, over an explicit filesystem state.

* Go `error` values are the inductive `GoError`; `errorsIs` / `errorsAs`
  follow the unwrap chain like `errors.Is` / `errors.As`.
* The filesystem (`FS`) maps directory entries to file contents and names
  to the directory entries they denote; a name is the string the program
  passes to the operating system, and two names can denote one entry.
* Whether an operating-system call made by `Save` succeeds is not decided by
  the program: the outcome of every call is read from an `Outcomes` record,
  over which the theorems quantify. `Save` returns the error, the final
  filesystem and the steps it took, each with the filesystem before and after,
  so that the state after every prefix of the steps (a crash) can be read off.
* `os.Open` for reading succeeds on a file that exists and fails with `ENOENT`
  on one that does not.
* The format libraries and `path/filepath` are external: they enter as the
  parameters `Codec`, `TomlLib` and `Filepath`.
-/

/-- File contents: a sequence of bytes. -/
abbrev Bytes := List Nat

/-! ## Go errors -/

/-- The Go error values that occur in the packages. -/
inductive GoError where
  /-- A value made by `errors.New`; `id` names the variable holding it. -/
  | errorString (id : String) (text : String)
  /-- A `syscall.Errno`. -/
  | errno (name : String)
  /-- A `*fs.PathError`; it unwraps to `err`. -/
  | pathError (op : String) (path : String) (err : GoError)
  /-- An error value of a codec's own type `typ`, without `Unwrap`. -/
  | codecError (typ : String) (text : String)
  /-- The `*fmt.wrapError` made by `fmt.Errorf` with one `%w` verb. -/
  | wrapError (msg : String) (err : GoError)
deriving DecidableEq, Repr

/-- The sentinel `fs.ErrNotExist` (`os.ErrNotExist` is the same value). -/
def ErrNotExist : GoError := .errorString "fs.ErrNotExist" "file does not exist"

/-- The sentinel `fs.ErrPermission`. -/
def ErrPermission : GoError := .errorString "fs.ErrPermission" "permission denied"

/-- The sentinel `fs.ErrExist`. -/
def ErrExist : GoError := .errorString "fs.ErrExist" "file already exists"

/-- The text of a `syscall.Errno`. -/
def errnoText (name : String) : String :=
  if name = "ENOENT" then "no such file or directory"
  else if name = "EACCES" then "permission denied"
  else if name = "EEXIST" then "file exists"
  else name

/-- The method `Error() string`. -/
def GoError.Error : GoError → String
  | .errorString _ text => text
  | .errno name => errnoText name
  | .pathError op path err => op ++ " " ++ path ++ ": " ++ err.Error
  | .codecError _ text => text
  | .wrapError msg _ => msg

/-- The method `Unwrap() error`, where the type has one. -/
def GoError.Unwrap : GoError → Option GoError
  | .pathError _ _ err => some err
  | .wrapError _ err => some err
  | _ => none

/-- The method `Is(target error) bool`; only `syscall.Errno` has one. -/
def GoError.Is (e target : GoError) : Bool :=
  match e with
  | .errno name =>
      (decide (target = ErrNotExist) && decide (name = "ENOENT"))
      || (decide (target = ErrPermission) && (decide (name = "EACCES") || decide (name = "EPERM")))
      || (decide (target = ErrExist) && (decide (name = "EEXIST") || decide (name = "ENOTEMPTY")))
  | _ => false

/-- The function `errors.Is`: some error of the unwrap chain equals `target`
or says so through its `Is` method. -/
def errorsIs : GoError → GoError → Bool
  | .pathError op path err, target =>
      decide (GoError.pathError op path err = target) || errorsIs err target
  | .wrapError msg err, target =>
      decide (GoError.wrapError msg err = target) || errorsIs err target
  | e, target => decide (e = target) || e.Is target

/-- The dynamic type of an error value. -/
def GoError.typeName : GoError → String
  | .errorString _ _ => "*errors.errorString"
  | .errno _ => "syscall.Errno"
  | .pathError _ _ _ => "*fs.PathError"
  | .codecError typ _ => typ
  | .wrapError _ _ => "*fmt.wrapError"

/-- The function `errors.As` for a target of type `typ`: the first error of
the unwrap chain that has this type. -/
def errorsAs : GoError → String → Option GoError
  | .pathError op path err, typ =>
      if typ = "*fs.PathError" then some (.pathError op path err) else errorsAs err typ
  | .wrapError msg err, typ =>
      if typ = "*fmt.wrapError" then some (.wrapError msg err) else errorsAs err typ
  | e, typ => if e.typeName = typ then some e else none

/-- The value of `fmt.Errorf(format, ..., err)` whose format ends in `: %w`
after the text `ctx`. -/
def errorfW (ctx : String) (err : GoError) : GoError :=
  .wrapError (ctx ++ ": " ++ err.Error) err

/-! ## The filesystem -/

/-- The filesystem: the regular files with their contents and the
directories, both by directory entry, and the directory entry that each name
denotes. Two names can denote one entry: `./a` and `a` do. -/
structure FS where
  entries : String → Option Bytes
  dirs : String → Bool
  resolve : String → String

/-- The contents of the file that `name` denotes, if there is one. -/
def FS.files (fs : FS) (name : String) : Option Bytes :=
  fs.entries (fs.resolve name)

/-- The file that `name` denotes holds `data`. -/
def FS.put (fs : FS) (name : String) (data : Bytes) : FS :=
  { fs with entries := fun q => if q = fs.resolve name then some data else fs.entries q }

/-- The file that `name` denotes is gone. -/
def FS.erase (fs : FS) (name : String) : FS :=
  { fs with entries := fun q => if q = fs.resolve name then none else fs.entries q }

/-- The directory `dir` exists. -/
def FS.mkdir (fs : FS) (dir : String) : FS :=
  { fs with dirs := fun q => if q = fs.resolve dir then true else fs.dirs q }

/-- A successful `os.Rename(oldpath, newpath)`: the directory entry of
`oldpath` is retargeted to `newpath` in one step; when both names denote the
same entry the call does nothing. -/
def FS.rename (fs : FS) (oldpath newpath : String) : FS :=
  match fs.files oldpath with
  | some data =>
      if fs.resolve oldpath = fs.resolve newpath then fs
      else (fs.erase oldpath).put newpath data
  | none => fs

/-- The call `os.Open(name)` for reading: the contents of the file, or a
`*fs.PathError` carrying `ENOENT` when there is no such file. -/
def osOpen (fs : FS) (name : String) : Except GoError Bytes :=
  match fs.files name with
  | some data => .ok data
  | none => .error (.pathError "open" name (.errno "ENOENT"))

/-! ## External libraries -/

/-- The two functions of `path/filepath` that the packages call. -/
structure Filepath where
  Clean : String → String
  Dir : String → String

/-- A format library for values of type `T`. `Encode cfg` is the complete
document that a successful `Encode` writes; `Decode data cfg` is one decode of
the stream `data` into the value `cfg`, giving the value afterwards and the
error. -/
structure Codec (T : Type) where
  Encode : T → Bytes
  Decode : Bytes → T → T × Option GoError

/-- A TOML key: `toml.Key` is `[]string`. -/
abbrev Key := List String

/-- The part of `toml.MetaData` that `Load` reads. -/
structure MetaData where
  Undecoded : List Key

/-- What `toml.DecodeFile(path, cfg)` gives: the metadata, the value of
`*cfg` afterwards, and the error. -/
structure DecodeFileResult (T : Type) where
  md : MetaData
  cfg : T
  err : Option GoError

/-- The TOML library: its encoder and `toml.DecodeFile`. -/
structure TomlLib (T : Type) where
  Encode : T → Bytes
  DecodeFile : FS → String → T → DecodeFileResult T

/-! ## Save -/

/-- The outcome of every operating-system call that one call of `Save`
can make: `none` is success. `createTemp` gives the name of the file created;
a failing `encode` gives the error and the bytes that reached the temp file
before it. -/
structure Outcomes where
  mkdirAll : Option GoError
  createTemp : Except GoError String
  encode : Option (GoError × Bytes)
  sync : Option GoError
  close : Option GoError
  rename : Option GoError
  remove : Option GoError
  openDir : Option GoError
  syncDir : Option GoError
  closeDir : Option GoError

/-- The calls that `Save` issues, with whether each succeeded. -/
inductive Event where
  | mkdirAll (dir : String) (perm : Nat) (ok : Bool)
  | createTemp (dir : String) (pattern : String) (created : Option String)
  | encode (name : String) (ok : Bool)
  | sync (name : String) (ok : Bool)
  | close (name : String) (ok : Bool)
  | remove (name : String) (ok : Bool)
  | rename (oldpath : String) (newpath : String) (ok : Bool)
  | openDir (name : String) (ok : Bool)
  | syncDir (name : String) (ok : Bool)
  | closeDir (name : String) (ok : Bool)
  /-- The deferred `enc.Close()` of the YAML encoder; the temp file handle is
  closed by then, so nothing reaches the filesystem. -/
  | encoderClose
deriving DecidableEq, Repr

/-- One call, with the filesystem before and after it. -/
structure Step where
  pre : FS
  ev : Event
  post : FS

/-- An execution so far: the current filesystem and the steps taken. -/
structure Run where
  fs : FS
  trace : List Step

/-- The start of an execution. -/
def Run.start (fs : FS) : Run := ⟨fs, []⟩

/-- One more call, whose effect on the filesystem is `f`. -/
def Run.exec (r : Run) (ev : Event) (f : FS → FS) : Run :=
  ⟨f r.fs, r.trace ++ [⟨r.fs, ev, f r.fs⟩]⟩

/-- What a call of `Save` leaves: the returned error (`none` is `nil`) and
the execution. -/
structure SaveResult where
  err : Option GoError
  run : Run

/-- The statements `_ = os.Remove(tmpPath)`: the file is gone when the call
succeeds and stays when it fails. -/
def Run.removeTemp (r : Run) (o : Outcomes) (tmpPath : String) : Run :=
  match o.remove with
  | none => r.exec (.remove tmpPath true) (fun fs => fs.erase tmpPath)
  | some _ => r.exec (.remove tmpPath false) id

/-- The statement `_ = tmp.Close()` of the failure branches. -/
def Run.closeTemp (r : Run) (o : Outcomes) (tmpPath : String) : Run :=
  r.exec (.close tmpPath o.close.isNone) id

/-- The deferred calls that run when `Save` returns after the encoder was
made: `enc.Close()` in `yamlio`, none in the other packages. -/
def Run.deferred (r : Run) (deferEncClose : Bool) : Run :=
  if deferEncClose then r.exec .encoderClose id else r

/-- The best-effort directory sync at the end of `Save`. -/
def Run.syncDir (r : Run) (o : Outcomes) (dir : String) : Run :=
  match o.openDir with
  | some _ => r.exec (.openDir dir false) id
  | none =>
      ((r.exec (.openDir dir true) id).exec
        (.syncDir dir o.syncDir.isNone) id).exec (.closeDir dir o.closeDir.isNone) id

/-- The body shared by `jsonio.Save`, `yamlio.Save` and `tomlio.Save`; the
packages differ in the encoder, in the pattern of the temp file name, and in
the deferred `enc.Close()` that only `yamlio` has. -/
def saveWith {T : Type} (fp : Filepath) (encode : T → Bytes) (pattern : String)
    (deferEncClose : Bool) (o : Outcomes) (fs : FS) (path : String) (cfg : T) : SaveResult :=
  let path := fp.Clean path
  let dir := fp.Dir path
  let r := Run.start fs
  -- Ensure parent directory exists.
  match o.mkdirAll with
  | some err => ⟨some (errorfW "make dir" err), r.exec (.mkdirAll dir 0o755 false) id⟩
  | none =>
  let r := r.exec (.mkdirAll dir 0o755 true) (fun fs => fs.mkdir dir)
  -- Create temporary file in the same directory.
  match o.createTemp with
  | .error err => ⟨some (errorfW "create temp" err), r.exec (.createTemp dir pattern none) id⟩
  | .ok tmpPath =>
  let r := r.exec (.createTemp dir pattern (some tmpPath)) (fun fs => fs.put tmpPath [])
  -- Encode into the temporary file.
  match o.encode with
  | some (err, written) =>
      let r := r.exec (.encode tmpPath false) (fun fs => fs.put tmpPath written)
      let r := r.closeTemp o tmpPath
      let r := r.removeTemp o tmpPath
      ⟨some (errorfW ("write " ++ tmpPath) err), r.deferred deferEncClose⟩
  | none =>
  let r := r.exec (.encode tmpPath true) (fun fs => fs.put tmpPath (encode cfg))
  -- Flush file contents to disk.
  match o.sync with
  | some err =>
      let r := r.exec (.sync tmpPath false) id
      let r := r.closeTemp o tmpPath
      let r := r.removeTemp o tmpPath
      ⟨some (errorfW ("sync " ++ tmpPath) err), r.deferred deferEncClose⟩
  | none =>
  let r := r.exec (.sync tmpPath true) id
  -- Close before renaming.
  match o.close with
  | some err =>
      let r := r.exec (.close tmpPath false) id
      let r := r.removeTemp o tmpPath
      ⟨some (errorfW ("close " ++ tmpPath) err), r.deferred deferEncClose⟩
  | none =>
  let r := r.exec (.close tmpPath true) id
  -- Atomically replace the target file.
  match o.rename with
  | some err =>
      let r := r.exec (.rename tmpPath path false) id
      let r := r.removeTemp o tmpPath
      ⟨some (errorfW ("rename " ++ tmpPath ++ " -> " ++ path) err), r.deferred deferEncClose⟩
  | none =>
  let r := r.exec (.rename tmpPath path true) (fun fs => fs.rename tmpPath path)
  -- Best-effort directory sync.
  let r := r.syncDir o dir
  ⟨none, r.deferred deferEncClose⟩

/-- The function `jsonio.Save`. -/
def jsonio.Save {T : Type} (fp : Filepath) (c : Codec T) (o : Outcomes) (fs : FS)
    (path : String) (cfg : T) : SaveResult :=
  saveWith fp c.Encode "*.json.tmp" false o fs path cfg

/-- The function `yamlio.Save`. -/
def yamlio.Save {T : Type} (fp : Filepath) (c : Codec T) (o : Outcomes) (fs : FS)
    (path : String) (cfg : T) : SaveResult :=
  saveWith fp c.Encode "*.yml.tmp" true o fs path cfg

/-- The function `tomlio.Save`. -/
def tomlio.Save {T : Type} (fp : Filepath) (lib : TomlLib T) (o : Outcomes) (fs : FS)
    (path : String) (cfg : T) : SaveResult :=
  saveWith fp lib.Encode "*.toml.tmp" false o fs path cfg

/-! ## Load -/

/-- What a call of `Load` leaves: the value of `*cfg` afterwards and the
returned error (`none` is `nil`). -/
structure LoadResult (T : Type) where
  cfg : T
  err : Option GoError

/-- The function `jsonio.Load`. The deferred `fp.Close()` changes nothing in the
filesystem and its error is discarded. -/
def jsonio.Load {T : Type} (fp : Filepath) (c : Codec T) (fs : FS) (path : String)
    (cfg : T) : LoadResult T :=
  let path := fp.Clean path
  match osOpen fs path with
  | .error err => ⟨cfg, some (errorfW ("open " ++ path) err)⟩
  | .ok data =>
      match c.Decode data cfg with
      | (cfg, some err) => ⟨cfg, some (errorfW ("decode " ++ path) err)⟩
      | (cfg, none) => ⟨cfg, none⟩

/-- The function `yamlio.Load`. The deferred `fp.Close()` changes nothing in the
filesystem and its error is discarded. -/
def yamlio.Load {T : Type} (fp : Filepath) (c : Codec T) (fs : FS) (path : String)
    (cfg : T) : LoadResult T :=
  let path := fp.Clean path
  match osOpen fs path with
  | .error err => ⟨cfg, some (errorfW ("open " ++ path) err)⟩
  | .ok data =>
      match c.Decode data cfg with
      | (cfg, some err) => ⟨cfg, some (errorfW ("decode " ++ path) err)⟩
      | (cfg, none) => ⟨cfg, none⟩

/-- The variable `tomlio.ErrUnknownKeys`. -/
def tomlio.ErrUnknownKeys : GoError := .errorString "tomlio.ErrUnknownKeys" "unknown keys"

/-- The function `strings.Join`. -/
def stringsJoin (elems : List String) (sep : String) : String :=
  match elems with
  | [] => ""
  | [e] => e
  | e :: rest => rest.foldl (fun b s => b ++ sep ++ s) e

/-- The function `tomlio.formatKeys`: the loop appends the joined segments
of each key to `parts`. -/
def tomlio.formatKeys (keys : List Key) : String :=
  let parts := keys.foldl (fun parts k => parts ++ [stringsJoin k "."]) []
  stringsJoin parts ", "

/-- The function `tomlio.Load`. The file is opened and read inside
`toml.DecodeFile`. -/
def tomlio.Load {T : Type} (fp : Filepath) (lib : TomlLib T) (fs : FS) (path : String)
    (cfg : T) : LoadResult T :=
  let path := fp.Clean path
  let res := lib.DecodeFile fs path cfg
  match res.err with
  | some err => ⟨res.cfg, some (errorfW ("decode " ++ path) err)⟩
  | none =>
      let undecoded := res.md.Undecoded
      if undecoded.length > 0 then
        ⟨res.cfg, some (.wrapError (tomlio.ErrUnknownKeys.Error ++ ": " ++ tomlio.formatKeys undecoded)
          tomlio.ErrUnknownKeys)⟩
      else ⟨res.cfg, none⟩

/-! ## Executions of Save -/

/-- Whether the event is a call of `os.Rename`. -/
def Event.isRename : Event → Bool
  | .rename _ _ _ => true
  | _ => false

/-- Whether the event is a call of `os.Rename` that succeeded. -/
def Event.isRenameOk : Event → Bool
  | .rename _ _ ok => ok
  | _ => false

/-- The calls of an execution, in the order issued. -/
def Run.events (r : Run) : List Event := r.trace.map Step.ev

/-- The calls that `Save` issued, in the order issued. -/
def SaveResult.events (res : SaveResult) : List Event := res.run.events

/-- The filesystem when `Save` returns. -/
def SaveResult.fs (res : SaveResult) : FS := res.run.fs

/-- The steps lead from the filesystem `s` to the filesystem `t`, each
starting where the one before it ended. -/
def Linked : FS → List Step → FS → Prop
  | s, [], t => s = t
  | s, st :: rest, t => st.pre = s ∧ Linked st.post rest t

/-- The calls of the best-effort directory sync. -/
def dirEvents (o : Outcomes) (dir : String) : List Event :=
  match o.openDir with
  | some _ => [.openDir dir false]
  | none => [.openDir dir true, .syncDir dir o.syncDir.isNone, .closeDir dir o.closeDir.isNone]

/-- Whether the event is a call of `os.CreateTemp`. -/
def Event.isCreateTemp : Event → Bool
  | .createTemp _ _ _ => true
  | _ => false

/-- Whether the event is a call of `Close` on the temp file handle. -/
def Event.isClose : Event → Bool
  | .close _ _ => true
  | _ => false

/-- Whether the event is a call of `os.Remove`. -/
def Event.isRemove : Event → Bool
  | .remove _ _ => true
  | _ => false

/-- A run whose steps lead from `fs0` to its current filesystem. -/
def Run.LinkedFrom (fs0 : FS) (r : Run) : Prop := Linked fs0 r.trace r.fs

/-! ## The properties claimed of Save -/

/-- No partial write at `p`, for a `Save` that started on `fs`, returned `res`
and was given a value whose complete encoding is `doc`:
* the steps form one execution from `fs` to the final filesystem;
* a step other than a successful rename leaves the file at `p` as it was;
* a successful rename leaves exactly `doc` at `p`;
* after every prefix of the steps, the file at `p` is what it was before the
  call (also when it was absent) or is exactly `doc`;
* when `Save` returns an error, the file at `p` is what it was before. -/
def AtomicAt (res : SaveResult) (fs : FS) (p : String) (doc : Bytes) : Prop :=
  Linked fs res.run.trace res.fs
  ∧ (∀ st ∈ res.run.trace, st.ev.isRenameOk = false → st.post.files p = st.pre.files p)
  ∧ (∀ st ∈ res.run.trace, st.ev.isRenameOk = true → st.post.files p = some doc)
  ∧ (∀ steps s, steps <+: res.run.trace → Linked fs steps s →
      s.files p = fs.files p ∨ s.files p = some doc)
  ∧ (res.err ≠ none → res.fs.files p = fs.files p)

/-- Sync before rename, for the calls `evs` of a `Save` onto `p`:
* a rename is preceded, in this order, by the successful encode, sync and
  close of its source, which is the temp file the call created, and its
  destination is `p`;
* at most one rename is issued;
* after a failed encode, sync or close no rename is issued. -/
def SyncBeforeRename (evs : List Event) (p : String) : Prop :=
  (∀ e ∈ evs, e.isRename = true →
    ∃ before dir pattern tmp ok after,
      evs = before ++ [Event.createTemp dir pattern (some tmp), Event.encode tmp true,
              Event.sync tmp true, Event.close tmp true, Event.rename tmp p ok] ++ after
      ∧ e = Event.rename tmp p ok)
  ∧ (evs.filter Event.isRename).length ≤ 1
  ∧ (∀ name, Event.encode name false ∈ evs ∨ Event.sync name false ∈ evs
        ∨ Event.close name false ∈ evs → ∀ e ∈ evs, e.isRename = false)

/-- The life of the temp file, for a `Save` onto `p` that started on `fs`, ran
with the outcomes `o` and returned `res`:
* at most one `os.CreateTemp` is issued, and none when `os.MkdirAll` failed;
* when a temp file was created and `Save` fails, an `os.Remove` of that file
  is issued and only the deferred encoder close follows it; the handle is
  closed exactly once before the remove, and when it was still open at the
  failure (a failed encode or sync) that close is the call right before the
  remove;
* when a temp file was created and `Save` succeeds, the temp name is gone,
  provided it does not denote the file that `p` denotes;
* when a temp file was created, `Save` fails and the remove succeeds, the
  temp name is gone. -/
def TempLifecycle (o : Outcomes) (fs : FS) (res : SaveResult) (p : String) : Prop :=
  (res.events.filter Event.isCreateTemp).length ≤ 1
  ∧ (o.mkdirAll ≠ none → ∀ e ∈ res.events, e.isCreateTemp = false)
  ∧ (∀ dir pattern tmp, Event.createTemp dir pattern (some tmp) ∈ res.events → res.err ≠ none →
      ∃ before after ok, res.events = before ++ [Event.remove tmp o.remove.isNone] ++ after
        ∧ Event.close tmp ok ∈ before
        ∧ (before.filter Event.isClose).length = 1
        ∧ (Event.encode tmp false ∈ before ∨ Event.sync tmp false ∈ before →
            ∃ earlier, before = earlier ++ [Event.close tmp ok])
        ∧ (∀ e ∈ before, e.isRemove = false)
        ∧ (∀ e ∈ after, e = Event.encoderClose))
  ∧ (∀ dir pattern tmp, Event.createTemp dir pattern (some tmp) ∈ res.events → res.err = none →
      fs.resolve tmp ≠ fs.resolve p → res.fs.files tmp = none)
  ∧ (∀ dir pattern tmp, Event.createTemp dir pattern (some tmp) ∈ res.events → res.err ≠ none →
      o.remove = none → res.fs.files tmp = none)

/-- Best-effort directory sync, for a `Save` seen as a function of the
outcomes: it returns `nil` exactly when the six calls up to the rename
succeed, and the outcomes of the directory sync do not change its result. -/
def DirSyncBestEffort (save : Outcomes → SaveResult) (o : Outcomes) : Prop :=
  ((save o).err = none ↔
      o.mkdirAll = none ∧ (∃ tmp, o.createTemp = .ok tmp) ∧ o.encode = none ∧ o.sync = none
        ∧ o.close = none ∧ o.rename = none)
  ∧ ∀ od sd cd, (save { o with openDir := od, syncDir := sd, closeDir := cd }).err = (save o).err

/-- The calls of a `Save` that returned `res`, for each place where the
function returns: the seven possible sequences. -/
def EventsCases (fp : Filepath) (pattern : String) (d : Bool) (o : Outcomes) (path : String)
    (res : SaveResult) : Prop :=
  ((∃ e, o.mkdirAll = some e) ∧ res.err ≠ none
      ∧ res.events = [Event.mkdirAll (fp.Dir (fp.Clean path)) 0o755 false])
    ∨ (o.mkdirAll = none ∧ (∃ e, o.createTemp = .error e) ∧ res.err ≠ none
      ∧ res.events = [Event.mkdirAll (fp.Dir (fp.Clean path)) 0o755 true,
           Event.createTemp (fp.Dir (fp.Clean path)) pattern none])
    ∨ (∃ tmp, o.mkdirAll = none ∧ o.createTemp = .ok tmp ∧ res.err ≠ none
      ∧ res.events = [Event.mkdirAll (fp.Dir (fp.Clean path)) 0o755 true,
           Event.createTemp (fp.Dir (fp.Clean path)) pattern (some tmp),
           Event.encode tmp false, Event.close tmp o.close.isNone,
           Event.remove tmp o.remove.isNone]
          ++ (if d then [Event.encoderClose] else []))
    ∨ (∃ tmp, o.mkdirAll = none ∧ o.createTemp = .ok tmp ∧ res.err ≠ none
      ∧ res.events = [Event.mkdirAll (fp.Dir (fp.Clean path)) 0o755 true,
           Event.createTemp (fp.Dir (fp.Clean path)) pattern (some tmp),
           Event.encode tmp true, Event.sync tmp false, Event.close tmp o.close.isNone,
           Event.remove tmp o.remove.isNone]
          ++ (if d then [Event.encoderClose] else []))
    ∨ (∃ tmp, o.mkdirAll = none ∧ o.createTemp = .ok tmp ∧ res.err ≠ none
      ∧ res.events = [Event.mkdirAll (fp.Dir (fp.Clean path)) 0o755 true,
           Event.createTemp (fp.Dir (fp.Clean path)) pattern (some tmp),
           Event.encode tmp true, Event.sync tmp true, Event.close tmp false,
           Event.remove tmp o.remove.isNone]
          ++ (if d then [Event.encoderClose] else []))
    ∨ (∃ tmp, o.mkdirAll = none ∧ o.createTemp = .ok tmp ∧ res.err ≠ none
      ∧ res.events = [Event.mkdirAll (fp.Dir (fp.Clean path)) 0o755 true,
           Event.createTemp (fp.Dir (fp.Clean path)) pattern (some tmp),
           Event.encode tmp true, Event.sync tmp true, Event.close tmp true,
           Event.rename tmp (fp.Clean path) false, Event.remove tmp o.remove.isNone]
          ++ (if d then [Event.encoderClose] else []))
    ∨ (∃ tmp, o.mkdirAll = none ∧ o.createTemp = .ok tmp ∧ res.err = none
      ∧ res.events = [Event.mkdirAll (fp.Dir (fp.Clean path)) 0o755 true,
           Event.createTemp (fp.Dir (fp.Clean path)) pattern (some tmp),
           Event.encode tmp true, Event.sync tmp true, Event.close tmp true,
           Event.rename tmp (fp.Clean path) true]
          ++ dirEvents o (fp.Dir (fp.Clean path)) ++ (if d then [Event.encoderClose] else []))


/-! ## Fixtures: the configuration type of the tests and small libraries -/

/-- The struct `testConfig` of the test files. -/
structure testConfig where
  Name : String
  Port : Nat
deriving DecidableEq, Repr

/-- A small format for `testConfig`: the port, then the characters of the
name. The empty stream is malformed. -/
def testCodec : Codec testConfig where
  Encode c := c.Port :: c.Name.toList.map Char.toNat
  Decode data cfg :=
    match data with
    | port :: name => (⟨String.mk (name.map Char.ofNat), port⟩, none)
    | [] => (cfg, some (.codecError "*json.SyntaxError" "unexpected end of input"))

/-- The `DecodeFile` of a small strict format for `testConfig`: the port, the
number of extra keys in the document, then the characters of the name. It
reports every extra key as undecoded, and an absent file with the error of
the open. -/
def testDecodeFile (fs : FS) (path : String) (cfg : testConfig) : DecodeFileResult testConfig :=
  match fs.files path with
  | none => ⟨⟨[]⟩, cfg, some (.pathError "open" path (.errno "ENOENT"))⟩
  | some (port :: extras :: name) =>
      ⟨⟨List.replicate extras ["extra"]⟩, ⟨String.mk (name.map Char.ofNat), port⟩, none⟩
  | some _ => ⟨⟨[]⟩, cfg, some (.codecError "toml.ParseError" "toml: expected key")⟩

/-- The small strict format, with an encoder that writes the fields of the
struct and nothing else. -/
def testToml : TomlLib testConfig where
  Encode c := c.Port :: 0 :: c.Name.toList.map Char.toNat
  DecodeFile := testDecodeFile

/-- The small strict format for a type whose marshaller also writes one key,
`extra`, that is no field of the struct: decoding restores the value and
reports that key as undecoded. -/
def stampedToml : TomlLib testConfig where
  Encode c := c.Port :: 1 :: c.Name.toList.map Char.toNat
  DecodeFile := testDecodeFile

/-- The characters of a name without the `./` in front of it. -/
def stripDotSlash : List Char → List Char
  | '.' :: '/' :: rest => stripDotSlash rest
  | cs => cs

/-- The directory entry that a name denotes, for names that are clean up to
a `./` in front: `./a` denotes the entry of `a`. -/
def testResolve (name : String) : String := String.mk (stripDotSlash name.toList)

/-- The functions `filepath.Clean` and `filepath.Dir` on names that are clean
up to a `./` in front: `Clean` drops it, and `Dir` gives the text before the
last separator, `.` for a name without separator and `/` for a name in the
root. -/
def testFilepath : Filepath where
  Clean p := if stripDotSlash p.toList = [] then "." else String.mk (stripDotSlash p.toList)
  Dir p :=
    match p.toList.reverse.dropWhile (fun ch => ch != '/') with
    | [] => "."
    | [_] => "/"
    | _ :: rest => String.mk rest.reverse

/-- The empty filesystem. -/
def emptyFS : FS := ⟨fun _ => none, fun _ => false, testResolve⟩

/-- The outcomes of a run in which every call succeeds and the temp file is
named `name`. -/
def allSucceed (name : String) : Outcomes :=
  ⟨none, .ok name, none, none, none, none, none, none, none, none⟩

/-- The outcomes of a run in which the rename fails, the other calls succeed
and the temp file is named `name`. -/
def renameFails (name : String) : Outcomes :=
  { allSucceed name with rename := some (.errno "EACCES") }

/-- The value saved by the tests. -/
def exampleConfig : testConfig := ⟨"example", 8080⟩

/-- A filesystem that holds a document with one extra key at `config.toml`. -/
def extraKeyFS : FS := emptyFS.put "config.toml" [8080, 1, 101, 120]

/-- A filesystem that holds a document without extra keys at `config.toml`. -/
def plainFS : FS := emptyFS.put "config.toml" [8080, 0, 101, 120]

/-- A filesystem that holds a malformed document at `config.json` and at
`config.toml`. -/
def malformedFS : FS := (emptyFS.put "config.json" []).put "config.toml" [7]

/-! ## Lemmas on errors -/

theorem errorsIs_self (e : GoError) : errorsIs e e = true := by
  cases e <;> simp [errorsIs]

theorem errorsIs_wrapError (msg : String) (e target : GoError) :
    errorsIs (.wrapError msg e) target
      = (decide (GoError.wrapError msg e = target) || errorsIs e target) := by
  simp [errorsIs]

theorem errorsIs_errorfW (ctx : String) (e target : GoError) (h : errorsIs e target = true) :
    errorsIs (errorfW ctx e) target = true := by
  simp [errorfW, errorsIs_wrapError, h]

theorem errorsIs_errorfW_self (ctx : String) (e : GoError) :
    errorsIs (errorfW ctx e) e = true :=
  errorsIs_errorfW ctx e e (errorsIs_self e)

theorem errorsAs_errorfW (ctx : String) (e : GoError) (typ : String)
    (h : typ ≠ "*fmt.wrapError") : errorsAs (errorfW ctx e) typ = errorsAs e typ := by
  simp [errorfW, errorsAs, h]

theorem errorfW_Error (ctx : String) (e : GoError) :
    (errorfW ctx e).Error = ctx ++ ": " ++ e.Error := rfl

theorem errorfW_Unwrap (ctx : String) (e : GoError) : (errorfW ctx e).Unwrap = some e := rfl

theorem osOpen_absent (fs : FS) (name : String) (h : fs.files name = none) :
    osOpen fs name = .error (.pathError "open" name (.errno "ENOENT")) := by
  simp [osOpen, h]

theorem osOpen_present (fs : FS) (name : String) (data : Bytes) (h : fs.files name = some data) :
    osOpen fs name = .ok data := by
  simp [osOpen, h]

theorem errorsIs_open_absent (name : String) :
    errorsIs (.pathError "open" name (.errno "ENOENT")) ErrNotExist = true := by
  simp [errorsIs, GoError.Is, ErrNotExist]

/-! ## Lemmas on Load -/

theorem jsonio_Load_absent {T : Type} (fp : Filepath) (c : Codec T) (fs : FS) (path : String)
    (cfg : T) (h : fs.files (fp.Clean path) = none) :
    jsonio.Load fp c fs path cfg
      = ⟨cfg, some (errorfW ("open " ++ fp.Clean path)
          (.pathError "open" (fp.Clean path) (.errno "ENOENT")))⟩ := by
  simp [jsonio.Load, osOpen_absent _ _ h]

theorem yamlio_Load_absent {T : Type} (fp : Filepath) (c : Codec T) (fs : FS) (path : String)
    (cfg : T) (h : fs.files (fp.Clean path) = none) :
    yamlio.Load fp c fs path cfg
      = ⟨cfg, some (errorfW ("open " ++ fp.Clean path)
          (.pathError "open" (fp.Clean path) (.errno "ENOENT")))⟩ := by
  simp [yamlio.Load, osOpen_absent _ _ h]

theorem jsonio_Load_present {T : Type} (fp : Filepath) (c : Codec T) (fs : FS) (path : String)
    (cfg : T) (data : Bytes) (h : fs.files (fp.Clean path) = some data) :
    jsonio.Load fp c fs path cfg
      = ⟨(c.Decode data cfg).1,
          (c.Decode data cfg).2.map (errorfW ("decode " ++ fp.Clean path))⟩ := by
  simp only [jsonio.Load, osOpen_present _ _ _ h]
  rcases hd : c.Decode data cfg with ⟨cfg', _ | e⟩ <;> simp

theorem yamlio_Load_present {T : Type} (fp : Filepath) (c : Codec T) (fs : FS) (path : String)
    (cfg : T) (data : Bytes) (h : fs.files (fp.Clean path) = some data) :
    yamlio.Load fp c fs path cfg
      = ⟨(c.Decode data cfg).1,
          (c.Decode data cfg).2.map (errorfW ("decode " ++ fp.Clean path))⟩ := by
  simp only [yamlio.Load, osOpen_present _ _ _ h]
  rcases hd : c.Decode data cfg with ⟨cfg', _ | e⟩ <;> simp

theorem tomlio_Load_decode_error {T : Type} (fp : Filepath) (lib : TomlLib T) (fs : FS)
    (path : String) (cfg : T) (e : GoError)
    (h : (lib.DecodeFile fs (fp.Clean path) cfg).err = some e) :
    tomlio.Load fp lib fs path cfg
      = ⟨(lib.DecodeFile fs (fp.Clean path) cfg).cfg,
          some (errorfW ("decode " ++ fp.Clean path) e)⟩ := by
  simp [tomlio.Load, h]

theorem tomlio_Load_decoded {T : Type} (fp : Filepath) (lib : TomlLib T) (fs : FS)
    (path : String) (cfg : T) (h : (lib.DecodeFile fs (fp.Clean path) cfg).err = none) :
    tomlio.Load fp lib fs path cfg
      = ⟨(lib.DecodeFile fs (fp.Clean path) cfg).cfg,
          if (lib.DecodeFile fs (fp.Clean path) cfg).md.Undecoded = [] then none
          else some (.wrapError
            ("unknown keys: " ++ tomlio.formatKeys (lib.DecodeFile fs (fp.Clean path) cfg).md.Undecoded)
            tomlio.ErrUnknownKeys)⟩ := by
  simp only [tomlio.Load, h]
  cases hu : (lib.DecodeFile fs (fp.Clean path) cfg).md.Undecoded with
  | nil => simp
  | cons k ks => simp [tomlio.ErrUnknownKeys, GoError.Error]

theorem tomlio_Load_cfg {T : Type} (fp : Filepath) (lib : TomlLib T) (fs : FS)
    (path : String) (cfg : T) :
    (tomlio.Load fp lib fs path cfg).cfg = (lib.DecodeFile fs (fp.Clean path) cfg).cfg := by
  cases h : (lib.DecodeFile fs (fp.Clean path) cfg).err with
  | none => rw [tomlio_Load_decoded fp lib fs path cfg h]
  | some e => rw [tomlio_Load_decode_error fp lib fs path cfg e h]

theorem errorsIs_unknownKeys (msg : String) :
    errorsIs (.wrapError msg tomlio.ErrUnknownKeys) tomlio.ErrUnknownKeys = true := by
  simp [errorsIs_wrapError, errorsIs_self]

/-! ## Lemmas on `formatKeys` -/

theorem stringsJoin_eq_intercalate (elems : List String) (sep : String) :
    stringsJoin elems sep = sep.intercalate elems := by
  have go : ∀ (rest : List String) (acc : String),
      rest.foldl (fun b s => b ++ sep ++ s) acc = String.intercalate.go acc sep rest := by
    intro rest
    induction rest with
    | nil => intro acc; rfl
    | cons a t ih => intro acc; simp [String.intercalate.go, ih]
  match elems with
  | [] => rfl
  | [e] => rfl
  | e :: a :: t => simp [stringsJoin, String.intercalate, go]

theorem foldl_append_singleton {α β : Type} (f : α → β) (xs : List α) (init : List β) :
    xs.foldl (fun parts k => parts ++ [f k]) init = init ++ xs.map f := by
  induction xs generalizing init with
  | nil => simp
  | cons x t ih => simp [ih]

theorem formatKeys_eq (keys : List Key) :
    tomlio.formatKeys keys = ", ".intercalate (keys.map (fun k => ".".intercalate k)) := by
  simp [tomlio.formatKeys, foldl_append_singleton, stringsJoin_eq_intercalate]

theorem intercalate_cons_cons (sep a b : String) (t : List String) :
    sep.intercalate (a :: b :: t) = a ++ sep ++ sep.intercalate (b :: t) := by
  have go : ∀ (rest : List String) (x y : String),
      String.intercalate.go (x ++ y) sep rest = x ++ String.intercalate.go y sep rest := by
    intro rest
    induction rest with
    | nil => intro x y; rfl
    | cons c t ih =>
        intro x y
        simp only [String.intercalate.go]
        rw [String.append_assoc, String.append_assoc, ih, String.append_assoc]
  simp only [String.intercalate, String.intercalate.go]
  rw [String.append_assoc, go, go, String.append_assoc]

/-! ## Lemmas on the filesystem -/

theorem FS.files_put (fs : FS) (name : String) (data : Bytes) (q : String) :
    (fs.put name data).files q
      = if fs.resolve q = fs.resolve name then some data else fs.files q := rfl

theorem FS.files_erase (fs : FS) (name q : String) :
    (fs.erase name).files q = if fs.resolve q = fs.resolve name then none else fs.files q := rfl

theorem FS.files_mkdir (fs : FS) (dir q : String) : (fs.mkdir dir).files q = fs.files q := rfl

theorem FS.resolve_put (fs : FS) (name : String) (data : Bytes) :
    (fs.put name data).resolve = fs.resolve := rfl

theorem FS.resolve_erase (fs : FS) (name : String) : (fs.erase name).resolve = fs.resolve := rfl

theorem FS.resolve_mkdir (fs : FS) (dir : String) : (fs.mkdir dir).resolve = fs.resolve := rfl

theorem FS.files_rename_old (fs : FS) (oldpath newpath : String)
    (h : fs.resolve oldpath ≠ fs.resolve newpath) :
    (fs.rename oldpath newpath).files oldpath = none := by
  unfold FS.rename
  cases hf : fs.files oldpath with
  | none => simpa using hf
  | some data => simp [h, FS.files_put, FS.files_erase, FS.resolve_erase]

theorem FS.files_rename_new (fs : FS) (oldpath newpath : String) (data : Bytes)
    (h : fs.files oldpath = some data) :
    (fs.rename oldpath newpath).files newpath = some data := by
  unfold FS.rename
  rw [h]
  by_cases hal : fs.resolve oldpath = fs.resolve newpath
  · simp only [hal, if_true]
    rw [← h]; unfold FS.files; rw [hal]
  · simp [hal, FS.files_put, FS.resolve_erase]

/-! ## Lemmas on executions -/

theorem Run.exec_fs (r : Run) (ev : Event) (f : FS → FS) : (r.exec ev f).fs = f r.fs := rfl

theorem Run.exec_trace (r : Run) (ev : Event) (f : FS → FS) :
    (r.exec ev f).trace = r.trace ++ [⟨r.fs, ev, f r.fs⟩] := rfl

theorem Run.start_fs (fs : FS) : (Run.start fs).fs = fs := rfl

theorem Run.start_trace (fs : FS) : (Run.start fs).trace = [] := rfl

theorem Run.closeTemp_eq (r : Run) (o : Outcomes) (tmp : String) :
    r.closeTemp o tmp = r.exec (.close tmp o.close.isNone) id := rfl

theorem Run.removeTemp_eq (r : Run) (o : Outcomes) (tmp : String) :
    r.removeTemp o tmp
      = r.exec (.remove tmp o.remove.isNone)
          (fun fs => if o.remove = none then fs.erase tmp else fs) := by
  cases h : o.remove <;> simp [Run.removeTemp, h, Run.exec]

theorem Run.deferred_fs (r : Run) (d : Bool) : (r.deferred d).fs = r.fs := by
  cases d <;> rfl

theorem Run.deferred_trace (r : Run) (d : Bool) :
    (r.deferred d).trace = r.trace ++ (if d then [⟨r.fs, .encoderClose, r.fs⟩] else []) := by
  cases d <;> simp [Run.deferred, Run.exec]

theorem Run.syncDir_fs (r : Run) (o : Outcomes) (dir : String) : (r.syncDir o dir).fs = r.fs := by
  cases h : o.openDir <;> simp [Run.syncDir, h, Run.exec]

theorem Run.syncDir_trace (r : Run) (o : Outcomes) (dir : String) :
    (r.syncDir o dir).trace = r.trace ++ (dirEvents o dir).map (fun ev => ⟨r.fs, ev, r.fs⟩) := by
  cases h : o.openDir <;> simp [Run.syncDir, dirEvents, h, Run.exec]

theorem dirEvents_not_rename (o : Outcomes) (dir : String) :
    ∀ e ∈ dirEvents o dir, e.isRename = false := by
  cases h : o.openDir <;> simp [dirEvents, h, Event.isRename]

/-- Case analysis on a call of `saveWith`: one case for each place where the
function returns. -/
theorem saveWith_cases {T : Type} (fp : Filepath) (encode : T → Bytes) (pattern : String)
    (d : Bool) (o : Outcomes) (fs : FS) (path : String) (cfg : T) (P : SaveResult → Prop)
    (hMkdir : ∀ e, o.mkdirAll = some e →
      P ⟨some (errorfW "make dir" e),
        (Run.start fs).exec (.mkdirAll (fp.Dir (fp.Clean path)) 0o755 false) id⟩)
    (hCreate : ∀ e, o.mkdirAll = none → o.createTemp = .error e →
      P ⟨some (errorfW "create temp" e),
        ((Run.start fs).exec (.mkdirAll (fp.Dir (fp.Clean path)) 0o755 true)
            (fun s => s.mkdir (fp.Dir (fp.Clean path)))).exec
          (.createTemp (fp.Dir (fp.Clean path)) pattern none) id⟩)
    (hEncode : ∀ tmp e w, o.mkdirAll = none → o.createTemp = .ok tmp → o.encode = some (e, w) →
      P ⟨some (errorfW ("write " ++ tmp) e),
        ((((((Run.start fs).exec (.mkdirAll (fp.Dir (fp.Clean path)) 0o755 true)
            (fun s => s.mkdir (fp.Dir (fp.Clean path)))).exec
          (.createTemp (fp.Dir (fp.Clean path)) pattern (some tmp)) (fun s => s.put tmp [])).exec
          (.encode tmp false) (fun s => s.put tmp w)).closeTemp o tmp).removeTemp o tmp).deferred d⟩)
    (hSync : ∀ tmp e, o.mkdirAll = none → o.createTemp = .ok tmp → o.encode = none →
      o.sync = some e →
      P ⟨some (errorfW ("sync " ++ tmp) e),
        (((((((Run.start fs).exec (.mkdirAll (fp.Dir (fp.Clean path)) 0o755 true)
            (fun s => s.mkdir (fp.Dir (fp.Clean path)))).exec
          (.createTemp (fp.Dir (fp.Clean path)) pattern (some tmp)) (fun s => s.put tmp [])).exec
          (.encode tmp true) (fun s => s.put tmp (encode cfg))).exec
          (.sync tmp false) id).closeTemp o tmp).removeTemp o tmp).deferred d⟩)
    (hClose : ∀ tmp e, o.mkdirAll = none → o.createTemp = .ok tmp → o.encode = none →
      o.sync = none → o.close = some e →
      P ⟨some (errorfW ("close " ++ tmp) e),
        (((((((Run.start fs).exec (.mkdirAll (fp.Dir (fp.Clean path)) 0o755 true)
            (fun s => s.mkdir (fp.Dir (fp.Clean path)))).exec
          (.createTemp (fp.Dir (fp.Clean path)) pattern (some tmp)) (fun s => s.put tmp [])).exec
          (.encode tmp true) (fun s => s.put tmp (encode cfg))).exec
          (.sync tmp true) id).exec (.close tmp false) id).removeTemp o tmp).deferred d⟩)
    (hRename : ∀ tmp e, o.mkdirAll = none → o.createTemp = .ok tmp → o.encode = none →
      o.sync = none → o.close = none → o.rename = some e →
      P ⟨some (errorfW ("rename " ++ tmp ++ " -> " ++ fp.Clean path) e),
        ((((((((Run.start fs).exec (.mkdirAll (fp.Dir (fp.Clean path)) 0o755 true)
            (fun s => s.mkdir (fp.Dir (fp.Clean path)))).exec
          (.createTemp (fp.Dir (fp.Clean path)) pattern (some tmp)) (fun s => s.put tmp [])).exec
          (.encode tmp true) (fun s => s.put tmp (encode cfg))).exec
          (.sync tmp true) id).exec (.close tmp true) id).exec
          (.rename tmp (fp.Clean path) false) id).removeTemp o tmp).deferred d⟩)
    (hDone : ∀ tmp, o.mkdirAll = none → o.createTemp = .ok tmp → o.encode = none →
      o.sync = none → o.close = none → o.rename = none →
      P ⟨none,
        ((((((((Run.start fs).exec (.mkdirAll (fp.Dir (fp.Clean path)) 0o755 true)
            (fun s => s.mkdir (fp.Dir (fp.Clean path)))).exec
          (.createTemp (fp.Dir (fp.Clean path)) pattern (some tmp)) (fun s => s.put tmp [])).exec
          (.encode tmp true) (fun s => s.put tmp (encode cfg))).exec
          (.sync tmp true) id).exec (.close tmp true) id).exec
          (.rename tmp (fp.Clean path) true) (fun s => s.rename tmp (fp.Clean path))).syncDir o
            (fp.Dir (fp.Clean path))).deferred d⟩) :
    P (saveWith fp encode pattern d o fs path cfg) := by
  unfold saveWith
  cases h1 : o.mkdirAll with
  | some e => simpa using hMkdir e h1
  | none =>
  cases h2 : o.createTemp with
  | error e => simpa using hCreate e h1 h2
  | ok tmp =>
  cases h3 : o.encode with
  | some ew => obtain ⟨e, w⟩ := ew; simpa using hEncode tmp e w h1 h2 h3
  | none =>
  cases h4 : o.sync with
  | some e => simpa using hSync tmp e h1 h2 h3 h4
  | none =>
  cases h5 : o.close with
  | some e => simpa using hClose tmp e h1 h2 h3 h4 h5
  | none =>
  cases h6 : o.rename with
  | some e => simpa using hRename tmp e h1 h2 h3 h4 h5 h6
  | none => simpa using hDone tmp h1 h2 h3 h4 h5 h6

theorem Linked.append_one {s m : FS} {l : List Step} (h : Linked s l m) (ev : Event) (t : FS) :
    Linked s (l ++ [⟨m, ev, t⟩]) t := by
  induction l generalizing s with
  | nil => cases h; exact ⟨rfl, rfl⟩
  | cons a l ih => exact ⟨h.1, ih h.2⟩

theorem Linked.append_same {s m : FS} {l : List Step} (h : Linked s l m) (evs : List Event) :
    Linked s (l ++ evs.map (fun ev => ⟨m, ev, m⟩)) m := by
  induction evs using List.reverseRecOn with
  | nil => simpa using h
  | append_singleton evs ev ih =>
      rw [List.map_append, ← List.append_assoc]
      exact Linked.append_one ih ev m

theorem Linked.last {s t : FS} {l : List Step} (h : Linked s l t) :
    t = s ∨ ∃ st ∈ l, t = st.post := by
  induction l generalizing s with
  | nil => exact Or.inl h.symm
  | cons a l ih =>
      rcases ih h.2 with h' | ⟨st, hst, h'⟩
      · exact Or.inr ⟨a, by simp, h'⟩
      · exact Or.inr ⟨st, by simp [hst], h'⟩

theorem Run.LinkedFrom.start (fs : FS) : (Run.start fs).LinkedFrom fs := rfl

theorem Run.LinkedFrom.exec {fs0 : FS} {r : Run} (h : r.LinkedFrom fs0) (ev : Event)
    (f : FS → FS) : (r.exec ev f).LinkedFrom fs0 :=
  Linked.append_one h ev (f r.fs)

theorem Run.LinkedFrom.closeTemp {fs0 : FS} {r : Run} (h : r.LinkedFrom fs0) (o : Outcomes)
    (tmp : String) : (r.closeTemp o tmp).LinkedFrom fs0 :=
  h.exec _ _

theorem Run.LinkedFrom.removeTemp {fs0 : FS} {r : Run} (h : r.LinkedFrom fs0) (o : Outcomes)
    (tmp : String) : (r.removeTemp o tmp).LinkedFrom fs0 := by
  rw [Run.removeTemp_eq]; exact h.exec _ _

theorem Run.LinkedFrom.deferred {fs0 : FS} {r : Run} (h : r.LinkedFrom fs0) (d : Bool) :
    (r.deferred d).LinkedFrom fs0 := by
  cases d
  · exact h
  · exact h.exec _ _

theorem Run.LinkedFrom.syncDir {fs0 : FS} {r : Run} (h : r.LinkedFrom fs0) (o : Outcomes)
    (dir : String) : (r.syncDir o dir).LinkedFrom fs0 := by
  unfold Run.LinkedFrom
  rw [Run.syncDir_trace, Run.syncDir_fs]
  exact Linked.append_same h _

theorem saveWith_linked {T : Type} (fp : Filepath) (encode : T → Bytes) (pattern : String)
    (d : Bool) (o : Outcomes) (fs : FS) (path : String) (cfg : T) :
    (saveWith fp encode pattern d o fs path cfg).run.LinkedFrom fs := by
  apply saveWith_cases fp encode pattern d o fs path cfg (fun res => res.run.LinkedFrom fs)
  all_goals intros
  all_goals
    repeat (first
      | exact Run.LinkedFrom.start fs
      | apply Run.LinkedFrom.deferred
      | apply Run.LinkedFrom.syncDir
      | apply Run.LinkedFrom.removeTemp
      | apply Run.LinkedFrom.closeTemp
      | apply Run.LinkedFrom.exec)

theorem dirEvents_not_renameOk (o : Outcomes) (dir : String) :
    ∀ e ∈ dirEvents o dir, e.isRenameOk = false := by
  cases h : o.openDir <;> simp [dirEvents, h, Event.isRenameOk]

theorem saveWith_steps {T : Type} (fp : Filepath) (encode : T → Bytes) (pattern : String)
    (d : Bool) (o : Outcomes) (fs : FS) (path : String) (cfg : T)
    (hne : ∀ tmp, o.createTemp = .ok tmp → fs.resolve tmp ≠ fs.resolve (fp.Clean path)) :
    (∀ st ∈ (saveWith fp encode pattern d o fs path cfg).run.trace,
        (st.ev.isRenameOk = false → st.post.files (fp.Clean path) = st.pre.files (fp.Clean path))
        ∧ (st.ev.isRenameOk = true → st.post.files (fp.Clean path) = some (encode cfg))
        ∧ (st.post.files (fp.Clean path) = fs.files (fp.Clean path)
            ∨ st.post.files (fp.Clean path) = some (encode cfg)))
    ∧ ((saveWith fp encode pattern d o fs path cfg).err ≠ none →
        (saveWith fp encode pattern d o fs path cfg).fs.files (fp.Clean path)
          = fs.files (fp.Clean path)) := by
  apply saveWith_cases fp encode pattern d o fs path cfg
    (fun res => (∀ st ∈ res.run.trace,
        (st.ev.isRenameOk = false → st.post.files (fp.Clean path) = st.pre.files (fp.Clean path))
        ∧ (st.ev.isRenameOk = true → st.post.files (fp.Clean path) = some (encode cfg))
        ∧ (st.post.files (fp.Clean path) = fs.files (fp.Clean path)
            ∨ st.post.files (fp.Clean path) = some (encode cfg)))
      ∧ (res.err ≠ none → res.fs.files (fp.Clean path) = fs.files (fp.Clean path)))
  case hMkdir => intro e h; simp [Run.exec, Run.start, Event.isRenameOk, SaveResult.fs]
  case hCreate => intro e h1 h2; simp [Run.exec, Run.start, Event.isRenameOk, SaveResult.fs, FS.files, FS.mkdir]
  case hEncode =>
    intro tmp e w h1 h2 h3
    have hn := hne tmp h2
    cases d <;> cases hr : o.remove <;>
      simp [Run.deferred, Run.removeTemp, Run.closeTemp, Run.exec, Run.start, Event.isRenameOk,
        SaveResult.fs, FS.files, FS.mkdir, FS.put, FS.erase, hr, hn, Ne.symm hn]
  case hSync =>
    intro tmp e h1 h2 h3 h4
    have hn := hne tmp h2
    cases d <;> cases hr : o.remove <;>
      simp [Run.deferred, Run.removeTemp, Run.closeTemp, Run.exec, Run.start, Event.isRenameOk,
        SaveResult.fs, FS.files, FS.mkdir, FS.put, FS.erase, hr, hn, Ne.symm hn]
  case hClose =>
    intro tmp e h1 h2 h3 h4 h5
    have hn := hne tmp h2
    cases d <;> cases hr : o.remove <;>
      simp [Run.deferred, Run.removeTemp, Run.closeTemp, Run.exec, Run.start, Event.isRenameOk,
        SaveResult.fs, FS.files, FS.mkdir, FS.put, FS.erase, hr, hn, Ne.symm hn]
  case hRename =>
    intro tmp e h1 h2 h3 h4 h5 h6
    have hn := hne tmp h2
    cases d <;> cases hr : o.remove <;>
      simp [Run.deferred, Run.removeTemp, Run.closeTemp, Run.exec, Run.start, Event.isRenameOk,
        SaveResult.fs, FS.files, FS.mkdir, FS.put, FS.erase, hr, hn, Ne.symm hn]
  case hDone =>
    intro tmp h1 h2 h3 h4 h5 h6
    have hn := hne tmp h2
    cases d <;> cases ho : o.openDir <;>
      simp [Run.deferred, Run.syncDir, Run.exec, Run.start, Event.isRenameOk,
        SaveResult.fs, FS.files, FS.mkdir, FS.put, FS.erase, FS.rename, ho, hn, Ne.symm hn]

theorem Run.events_start (fs : FS) : (Run.start fs).events = [] := rfl

theorem Run.events_exec (r : Run) (ev : Event) (f : FS → FS) :
    (r.exec ev f).events = r.events ++ [ev] := by
  simp [Run.events, Run.exec]

theorem Run.events_closeTemp (r : Run) (o : Outcomes) (tmp : String) :
    (r.closeTemp o tmp).events = r.events ++ [.close tmp o.close.isNone] := by
  simp [Run.events, Run.closeTemp, Run.exec]

theorem Run.events_removeTemp (r : Run) (o : Outcomes) (tmp : String) :
    (r.removeTemp o tmp).events = r.events ++ [.remove tmp o.remove.isNone] := by
  simp [Run.removeTemp_eq, Run.events_exec]

theorem Run.events_deferred (r : Run) (d : Bool) :
    (r.deferred d).events = r.events ++ (if d then [.encoderClose] else []) := by
  cases d <;> simp [Run.events, Run.deferred, Run.exec]

theorem Run.events_syncDir (r : Run) (o : Outcomes) (dir : String) :
    (r.syncDir o dir).events = r.events ++ dirEvents o dir := by
  simp [Run.events, Run.syncDir_trace, Function.comp_def]

theorem saveWith_events_cases {T : Type} (fp : Filepath) (encode : T → Bytes) (pattern : String)
    (d : Bool) (o : Outcomes) (fs : FS) (path : String) (cfg : T) :
    EventsCases fp pattern d o path (saveWith fp encode pattern d o fs path cfg) := by
  apply saveWith_cases fp encode pattern d o fs path cfg (EventsCases fp pattern d o path)
  case hMkdir =>
    intro e h
    exact Or.inl ⟨⟨e, h⟩, by simp, by simp [SaveResult.events, Run.events_exec, Run.events_start]⟩
  case hCreate =>
    intro e h0 h
    exact Or.inr (Or.inl ⟨h0, ⟨e, h⟩, by simp,
      by simp [SaveResult.events, Run.events_exec, Run.events_start]⟩)
  case hEncode =>
    intro tmp e w h0 h _
    exact Or.inr (Or.inr (Or.inl ⟨tmp, h0, h, by simp,
      by simp [SaveResult.events, Run.events_exec, Run.events_start, Run.events_closeTemp,
        Run.events_removeTemp, Run.events_deferred]⟩))
  case hSync =>
    intro tmp e h0 h _ _
    exact Or.inr (Or.inr (Or.inr (Or.inl ⟨tmp, h0, h, by simp,
      by simp [SaveResult.events, Run.events_exec, Run.events_start, Run.events_closeTemp,
        Run.events_removeTemp, Run.events_deferred]⟩)))
  case hClose =>
    intro tmp e h0 h _ _ _
    exact Or.inr (Or.inr (Or.inr (Or.inr (Or.inl ⟨tmp, h0, h, by simp,
      by simp [SaveResult.events, Run.events_exec, Run.events_start, Run.events_closeTemp,
        Run.events_removeTemp, Run.events_deferred]⟩))))
  case hRename =>
    intro tmp e h0 h _ _ _ _
    exact Or.inr (Or.inr (Or.inr (Or.inr (Or.inr (Or.inl ⟨tmp, h0, h, by simp,
      by simp [SaveResult.events, Run.events_exec, Run.events_start, Run.events_closeTemp,
        Run.events_removeTemp, Run.events_deferred]⟩)))))
  case hDone =>
    intro tmp h0 h _ _ _ _
    exact Or.inr (Or.inr (Or.inr (Or.inr (Or.inr (Or.inr ⟨tmp, h0, h, by simp,
      by simp [SaveResult.events, Run.events_exec, Run.events_start, Run.events_syncDir,
        Run.events_deferred]⟩)))))

/-! ## The properties, for the shared body -/

theorem saveWith_err_none_iff {T : Type} (fp : Filepath) (encode : T → Bytes) (pattern : String)
    (d : Bool) (o : Outcomes) (fs : FS) (path : String) (cfg : T) :
    (saveWith fp encode pattern d o fs path cfg).err = none ↔
      o.mkdirAll = none ∧ (∃ tmp, o.createTemp = .ok tmp) ∧ o.encode = none ∧ o.sync = none
        ∧ o.close = none ∧ o.rename = none := by
  obtain ⟨mk, ct, en, sy, cl, rn, rm, od, sd, cd⟩ := o
  cases mk <;> cases ct <;> cases en <;> cases sy <;> cases cl <;> cases rn <;>
    simp [saveWith]

theorem saveWith_err_dirsync {T : Type} (fp : Filepath) (encode : T → Bytes) (pattern : String)
    (d : Bool) (o : Outcomes) (fs : FS) (path : String) (cfg : T) (od sd cd : Option GoError) :
    (saveWith fp encode pattern d { o with openDir := od, syncDir := sd, closeDir := cd }
        fs path cfg).err = (saveWith fp encode pattern d o fs path cfg).err := by
  obtain ⟨mk, ct, en, sy, cl, rn, rm, od', sd', cd'⟩ := o
  cases mk <;> cases ct <;> cases en <;> cases sy <;> cases cl <;> cases rn <;>
    simp [saveWith]

theorem saveWith_dirSync {T : Type} (fp : Filepath) (encode : T → Bytes) (pattern : String)
    (d : Bool) (o : Outcomes) (fs : FS) (path : String) (cfg : T) :
    DirSyncBestEffort (fun o => saveWith fp encode pattern d o fs path cfg) o :=
  ⟨saveWith_err_none_iff fp encode pattern d o fs path cfg,
    fun od sd cd => saveWith_err_dirsync fp encode pattern d o fs path cfg od sd cd⟩

theorem saveWith_atomicAt {T : Type} (fp : Filepath) (encode : T → Bytes) (pattern : String)
    (d : Bool) (o : Outcomes) (fs : FS) (path : String) (cfg : T)
    (hne : ∀ tmp, o.createTemp = .ok tmp → fs.resolve tmp ≠ fs.resolve (fp.Clean path)) :
    AtomicAt (saveWith fp encode pattern d o fs path cfg) fs (fp.Clean path) (encode cfg) := by
  have hsteps := saveWith_steps fp encode pattern d o fs path cfg hne
  have hlinked := saveWith_linked fp encode pattern d o fs path cfg
  refine ⟨hlinked, fun st hst => (hsteps.1 st hst).1, fun st hst => (hsteps.1 st hst).2.1,
    ?_, hsteps.2⟩
  intro steps s hpre hl
  rcases Linked.last hl with h | ⟨st, hst, h⟩
  · exact Or.inl (by rw [h])
  · rw [h]; exact (hsteps.1 st (hpre.subset hst)).2.2

theorem saveWith_done_content {T : Type} (fp : Filepath) (encode : T → Bytes) (pattern : String)
    (d : Bool) (o : Outcomes) (fs : FS) (path : String) (cfg : T)
    (h : (saveWith fp encode pattern d o fs path cfg).err = none) :
    (saveWith fp encode pattern d o fs path cfg).fs.files (fp.Clean path) = some (encode cfg) := by
  revert h
  apply saveWith_cases fp encode pattern d o fs path cfg
    (fun res => res.err = none → res.fs.files (fp.Clean path) = some (encode cfg))
  case hDone =>
    intro tmp _ _ _ _ _ _ _
    simp only [SaveResult.fs, Run.deferred_fs, Run.syncDir_fs, Run.exec_fs, Run.start_fs]
    exact FS.files_rename_new _ _ _ _ (by simp [FS.files_put])
  all_goals intros; simp_all

theorem saveWith_temp_state {T : Type} (fp : Filepath) (encode : T → Bytes) (pattern : String)
    (d : Bool) (o : Outcomes) (fs : FS) (path : String) (cfg : T) (tmp : String)
    (hct : o.createTemp = .ok tmp) :
    ((saveWith fp encode pattern d o fs path cfg).err = none →
      fs.resolve tmp ≠ fs.resolve (fp.Clean path) →
      (saveWith fp encode pattern d o fs path cfg).fs.files tmp = none)
    ∧ ((saveWith fp encode pattern d o fs path cfg).err ≠ none → o.mkdirAll = none →
      o.remove = none → (saveWith fp encode pattern d o fs path cfg).fs.files tmp = none) := by
  apply saveWith_cases fp encode pattern d o fs path cfg
    (fun res => (res.err = none → fs.resolve tmp ≠ fs.resolve (fp.Clean path) →
        res.fs.files tmp = none)
      ∧ (res.err ≠ none → o.mkdirAll = none → o.remove = none → res.fs.files tmp = none))
  case hMkdir => intro e h; simp [h]
  case hCreate => intro e _ h; simp [h] at hct
  case hEncode =>
    intro t e w _ h _
    have ht : t = tmp := by simpa [h] using hct
    subst ht
    simp +contextual [SaveResult.fs, Run.deferred_fs, Run.removeTemp_eq,
      Run.closeTemp_eq, Run.exec_fs, FS.files, FS.erase, FS.put, FS.mkdir]
  case hSync =>
    intro t e _ h _ _
    have ht : t = tmp := by simpa [h] using hct
    subst ht
    simp +contextual [SaveResult.fs, Run.deferred_fs, Run.removeTemp_eq,
      Run.closeTemp_eq, Run.exec_fs, FS.files, FS.erase, FS.put, FS.mkdir]
  case hClose =>
    intro t e _ h _ _ _
    have ht : t = tmp := by simpa [h] using hct
    subst ht
    simp +contextual [SaveResult.fs, Run.deferred_fs, Run.removeTemp_eq,
      Run.closeTemp_eq, Run.exec_fs, FS.files, FS.erase, FS.put, FS.mkdir]
  case hRename =>
    intro t e _ h _ _ _ _
    have ht : t = tmp := by simpa [h] using hct
    subst ht
    simp +contextual [SaveResult.fs, Run.deferred_fs, Run.removeTemp_eq,
      Run.closeTemp_eq, Run.exec_fs, FS.files, FS.erase, FS.put, FS.mkdir]
  case hDone =>
    intro t _ h _ _ _ _
    have ht : t = tmp := by simpa [h] using hct
    subst ht
    refine ⟨fun _ hne => ?_, fun herr => absurd rfl herr⟩
    simp only [SaveResult.fs, Run.deferred_fs, Run.syncDir_fs, Run.exec_fs, Run.start_fs]
    exact FS.files_rename_old _ _ _ hne

theorem filter_isRename_dirEvents (o : Outcomes) (dir : String) :
    (dirEvents o dir).filter Event.isRename = [] := by
  cases h : o.openDir <;> simp [dirEvents, h, Event.isRename]

theorem deferred_not_rename (d : Bool) :
    ∀ e ∈ (if d then [Event.encoderClose] else []), e.isRename = false := by
  cases d <;> simp [Event.isRename]

theorem eq_of_mem_of_isRename (l1 l2 : List Event) {r e : Event}
    (h1 : ∀ x ∈ l1, x.isRename = false) (h2 : ∀ x ∈ l2, x.isRename = false)
    (he : e ∈ l1 ++ r :: l2) (hr : e.isRename = true) : e = r := by
  rcases List.mem_append.1 he with h | h
  · rw [h1 e h] at hr; cases hr
  · rcases List.mem_cons.1 h with h | h
    · exact h
    · rw [h2 e h] at hr; cases hr

theorem saveWith_syncBeforeRename {T : Type} (fp : Filepath) (encode : T → Bytes)
    (pattern : String) (d : Bool) (o : Outcomes) (fs : FS) (path : String) (cfg : T) :
    SyncBeforeRename (saveWith fp encode pattern d o fs path cfg).events (fp.Clean path) := by
  have h := saveWith_events_cases fp encode pattern d o fs path cfg
  unfold EventsCases at h
  rcases h with ⟨_, _, hev⟩ | ⟨_, _, _, hev⟩ | ⟨tmp, _, _, _, hev⟩ | ⟨tmp, _, _, _, hev⟩
    | ⟨tmp, _, _, _, hev⟩ | ⟨tmp, _, _, _, hev⟩ | ⟨tmp, _, _, _, hev⟩
  · rw [hev]; simp [SyncBeforeRename, Event.isRename]
  · rw [hev]; simp [SyncBeforeRename, Event.isRename]
  · rw [hev]; cases d <;> simp [SyncBeforeRename, Event.isRename]
  · rw [hev]; cases d <;> simp [SyncBeforeRename, Event.isRename]
  · rw [hev]; cases d <;> simp [SyncBeforeRename, Event.isRename]
  · rw [hev]
    refine ⟨?_, ?_, ?_⟩
    · intro e he hr
      refine ⟨[Event.mkdirAll (fp.Dir (fp.Clean path)) 0o755 true], fp.Dir (fp.Clean path),
        pattern, tmp, false,
        [Event.remove tmp o.remove.isNone] ++ (if d then [Event.encoderClose] else []), ?_, ?_⟩
      · simp
      · refine eq_of_mem_of_isRename
          [Event.mkdirAll (fp.Dir (fp.Clean path)) 0o755 true,
            Event.createTemp (fp.Dir (fp.Clean path)) pattern (some tmp), Event.encode tmp true,
            Event.sync tmp true, Event.close tmp true]
          ([Event.remove tmp o.remove.isNone] ++ (if d then [Event.encoderClose] else []))
          ?_ ?_ (by simpa using he) hr
        · simp [Event.isRename]
        · cases d <;> simp [Event.isRename]
    · cases d <;> simp [Event.isRename]
    · cases d <;> simp [Event.isRename]
  · rw [hev]
    refine ⟨?_, ?_, ?_⟩
    · intro e he hr
      refine ⟨[Event.mkdirAll (fp.Dir (fp.Clean path)) 0o755 true], fp.Dir (fp.Clean path),
        pattern, tmp, true,
        dirEvents o (fp.Dir (fp.Clean path)) ++ (if d then [Event.encoderClose] else []), ?_, ?_⟩
      · simp
      · refine eq_of_mem_of_isRename
          [Event.mkdirAll (fp.Dir (fp.Clean path)) 0o755 true,
            Event.createTemp (fp.Dir (fp.Clean path)) pattern (some tmp), Event.encode tmp true,
            Event.sync tmp true, Event.close tmp true]
          (dirEvents o (fp.Dir (fp.Clean path)) ++ (if d then [Event.encoderClose] else []))
          ?_ ?_ (by simpa using he) hr
        · simp [Event.isRename]
        · intro x hx
          rcases List.mem_append.1 hx with hx | hx
          · exact dirEvents_not_rename o _ x hx
          · exact deferred_not_rename d x hx
    · cases d <;> simp [Event.isRename, List.filter_append, filter_isRename_dirEvents]
    · intro name hname
      exfalso
      have hd := dirEvents_not_rename o (fp.Dir (fp.Clean path))
      cases ho : o.openDir <;> cases d <;> simp [dirEvents, ho] at hname

theorem createTemp_not_mem_dirEvents (o : Outcomes) (dir d pattern : String)
    (created : Option String) : Event.createTemp d pattern created ∉ dirEvents o dir := by
  cases h : o.openDir <;> simp [dirEvents, h]

theorem dirEvents_not_createTemp (o : Outcomes) (dir : String) :
    ∀ e ∈ dirEvents o dir, e.isCreateTemp = false := by
  cases h : o.openDir <;> simp [dirEvents, h, Event.isCreateTemp]

theorem filter_isCreateTemp_dirEvents (o : Outcomes) (dir : String) :
    (dirEvents o dir).filter Event.isCreateTemp = [] := by
  cases h : o.openDir <;> simp [dirEvents, h, Event.isCreateTemp]

theorem created_of_mem_events {T : Type} (fp : Filepath) (encode : T → Bytes)
    (pattern : String) (d : Bool) (o : Outcomes) (fs : FS) (path : String) (cfg : T)
    (dir pat tmp : String)
    (hmem : Event.createTemp dir pat (some tmp)
      ∈ (saveWith fp encode pattern d o fs path cfg).events) :
    o.mkdirAll = none ∧ o.createTemp = .ok tmp := by
  have h := saveWith_events_cases fp encode pattern d o fs path cfg
  unfold EventsCases at h
  have hd := createTemp_not_mem_dirEvents o (fp.Dir (fp.Clean path)) dir pat (some tmp)
  rcases h with ⟨_, _, hev⟩ | ⟨_, _, _, hev⟩ | ⟨t, h0, hct, _, hev⟩ | ⟨t, h0, hct, _, hev⟩
    | ⟨t, h0, hct, _, hev⟩ | ⟨t, h0, hct, _, hev⟩ | ⟨t, h0, hct, _, hev⟩
  · rw [hev] at hmem; simp at hmem
  · rw [hev] at hmem; simp at hmem
  all_goals
    rw [hev] at hmem
    cases d <;> simp [hd] at hmem <;> (obtain ⟨_, _, rfl⟩ := hmem; exact ⟨h0, hct⟩)

theorem saveWith_tempLifecycle {T : Type} (fp : Filepath) (encode : T → Bytes)
    (pattern : String) (d : Bool) (o : Outcomes) (fs : FS) (path : String) (cfg : T) :
    TempLifecycle o fs (saveWith fp encode pattern d o fs path cfg) (fp.Clean path) := by
  have h := saveWith_events_cases fp encode pattern d o fs path cfg
  unfold EventsCases at h
  refine ⟨?_, ?_, ?_, ?_, ?_⟩
  · rcases h with ⟨_, _, hev⟩ | ⟨_, _, _, hev⟩ | ⟨t, _, _, _, hev⟩ | ⟨t, _, _, _, hev⟩
      | ⟨t, _, _, _, hev⟩ | ⟨t, _, _, _, hev⟩ | ⟨t, _, _, _, hev⟩ <;> rw [hev] <;>
      cases d <;>
      simp [Event.isCreateTemp, List.filter_append, filter_isCreateTemp_dirEvents]
  · intro hmk
    rcases h with ⟨_, _, hev⟩ | ⟨h0, _⟩ | ⟨t, h0, _⟩ | ⟨t, h0, _⟩ | ⟨t, h0, _⟩ | ⟨t, h0, _⟩
      | ⟨t, h0, _⟩
    · rw [hev]; simp [Event.isCreateTemp]
    all_goals exact absurd h0 hmk
  · intro dir pat tmp hmem herr
    obtain ⟨_, hct⟩ := created_of_mem_events fp encode pattern d o fs path cfg dir pat tmp hmem
    rcases h with ⟨_, _, hev⟩ | ⟨_, ⟨e, he⟩, _⟩ | ⟨t, _, hct', _, hev⟩
      | ⟨t, _, hct', _, hev⟩ | ⟨t, _, hct', _, hev⟩ | ⟨t, _, hct', _, hev⟩ | ⟨t, _, _, hnone, _⟩
    · rw [hev] at hmem; simp at hmem
    · rw [he] at hct; cases hct
    · have ht : t = tmp := by simpa [hct'] using hct
      subst ht
      exact ⟨[Event.mkdirAll (fp.Dir (fp.Clean path)) 0o755 true,
          Event.createTemp (fp.Dir (fp.Clean path)) pattern (some t), Event.encode t false,
          Event.close t o.close.isNone], (if d then [Event.encoderClose] else []),
        o.close.isNone, by rw [hev]; simp, by simp, by simp [Event.isClose],
        fun _ => ⟨[Event.mkdirAll (fp.Dir (fp.Clean path)) 0o755 true,
          Event.createTemp (fp.Dir (fp.Clean path)) pattern (some t), Event.encode t false],
          by simp⟩,
        by simp [Event.isRemove], by cases d <;> simp⟩
    · have ht : t = tmp := by simpa [hct'] using hct
      subst ht
      exact ⟨[Event.mkdirAll (fp.Dir (fp.Clean path)) 0o755 true,
          Event.createTemp (fp.Dir (fp.Clean path)) pattern (some t), Event.encode t true,
          Event.sync t false, Event.close t o.close.isNone],
        (if d then [Event.encoderClose] else []),
        o.close.isNone, by rw [hev]; simp, by simp, by simp [Event.isClose],
        fun _ => ⟨[Event.mkdirAll (fp.Dir (fp.Clean path)) 0o755 true,
          Event.createTemp (fp.Dir (fp.Clean path)) pattern (some t), Event.encode t true,
          Event.sync t false], by simp⟩,
        by simp [Event.isRemove], by cases d <;> simp⟩
    · have ht : t = tmp := by simpa [hct'] using hct
      subst ht
      exact ⟨[Event.mkdirAll (fp.Dir (fp.Clean path)) 0o755 true,
          Event.createTemp (fp.Dir (fp.Clean path)) pattern (some t), Event.encode t true,
          Event.sync t true, Event.close t false], (if d then [Event.encoderClose] else []),
        false, by rw [hev]; simp, by simp, by simp [Event.isClose],
        fun _ => ⟨[Event.mkdirAll (fp.Dir (fp.Clean path)) 0o755 true,
          Event.createTemp (fp.Dir (fp.Clean path)) pattern (some t), Event.encode t true,
          Event.sync t true], by simp⟩,
        by simp [Event.isRemove], by cases d <;> simp⟩
    · have ht : t = tmp := by simpa [hct'] using hct
      subst ht
      exact ⟨[Event.mkdirAll (fp.Dir (fp.Clean path)) 0o755 true,
          Event.createTemp (fp.Dir (fp.Clean path)) pattern (some t), Event.encode t true,
          Event.sync t true, Event.close t true, Event.rename t (fp.Clean path) false],
        (if d then [Event.encoderClose] else []), true, by rw [hev]; simp, by simp,
        by simp [Event.isClose], fun hopen => by simp at hopen,
        by simp [Event.isRemove], by cases d <;> simp⟩
    · exact absurd hnone herr
  · intro dir pat tmp hmem herr hne
    obtain ⟨_, hct⟩ := created_of_mem_events fp encode pattern d o fs path cfg dir pat tmp hmem
    exact (saveWith_temp_state fp encode pattern d o fs path cfg tmp hct).1 herr hne
  · intro dir pat tmp hmem herr hrm
    obtain ⟨hmk, hct⟩ := created_of_mem_events fp encode pattern d o fs path cfg dir pat tmp hmem
    exact (saveWith_temp_state fp encode pattern d o fs path cfg tmp hct).2 herr hmk hrm

/-! ## Load: the error contract -/

/-- C3. Not-found translation: when no file exists at the cleaned path,
`jsonio.Load` and `yamlio.Load` return a non-nil error for which
`errors.Is(err, os.ErrNotExist)` holds, and that error is the `%w` wrapping of the
error of the open (it unwraps to it), the value `*cfg` being untouched. For
`tomlio.Load` the open happens inside `toml.DecodeFile`: whenever that call
reports an error `e` with `errors.Is(e, os.ErrNotExist)`, `Load` returns an error
that unwraps to `e` and for which `errors.Is(err, os.ErrNotExist)` holds. -/
theorem load_not_exist {T : Type} (fp : Filepath) (c : Codec T) (lib : TomlLib T) (fs : FS)
    (path : String) (cfg : T) (habsent : fs.files (fp.Clean path) = none) :
    (∃ e err, osOpen fs (fp.Clean path) = .error e
        ∧ jsonio.Load fp c fs path cfg = ⟨cfg, some err⟩
        ∧ err = .wrapError ("open " ++ fp.Clean path ++ ": " ++ e.Error) e
        ∧ err.Unwrap = some e ∧ errorsIs err ErrNotExist = true)
    ∧ (∃ e err, osOpen fs (fp.Clean path) = .error e
        ∧ yamlio.Load fp c fs path cfg = ⟨cfg, some err⟩
        ∧ err = .wrapError ("open " ++ fp.Clean path ++ ": " ++ e.Error) e
        ∧ err.Unwrap = some e ∧ errorsIs err ErrNotExist = true)
    ∧ (∀ e, (lib.DecodeFile fs (fp.Clean path) cfg).err = some e → errorsIs e ErrNotExist = true →
        ∃ err, (tomlio.Load fp lib fs path cfg).err = some err
          ∧ err = .wrapError ("decode " ++ fp.Clean path ++ ": " ++ e.Error) e
          ∧ err.Unwrap = some e ∧ errorsIs err ErrNotExist = true) := by
  refine ⟨?_, ?_, ?_⟩
  · exact ⟨_, _, osOpen_absent fs _ habsent, jsonio_Load_absent fp c fs path cfg habsent, rfl, rfl,
      errorsIs_errorfW _ _ _ (errorsIs_open_absent _)⟩
  · exact ⟨_, _, osOpen_absent fs _ habsent, yamlio_Load_absent fp c fs path cfg habsent, rfl, rfl,
      errorsIs_errorfW _ _ _ (errorsIs_open_absent _)⟩
  · intro e he his
    refine ⟨errorfW ("decode " ++ fp.Clean path) e, ?_, rfl, rfl, errorsIs_errorfW _ _ _ his⟩
    rw [tomlio_Load_decode_error fp lib fs path cfg e he]

/-- Witness of C3 on the empty filesystem, where the three packages report
`not-exist.*` as absent. -/
theorem load_not_exist_witness :
    (jsonio.Load testFilepath testCodec emptyFS "not-exist.json" exampleConfig).err.map
        (fun err => errorsIs err ErrNotExist) = some true
    ∧ (tomlio.Load testFilepath testToml emptyFS "not-exist.json" exampleConfig).err.map
        (fun err => errorsIs err ErrNotExist) = some true := by
  have h := load_not_exist testFilepath testCodec testToml emptyFS "not-exist.json"
    exampleConfig rfl
  obtain ⟨⟨e, err, _, hj, _, _, hij⟩, _, ht⟩ := h
  obtain ⟨err', het, _, _, hit⟩ := ht (.pathError "open" "not-exist.json" (.errno "ENOENT"))
    rfl (by decide)
  exact ⟨by rw [hj]; simp [hij], by rw [het]; simp [hit]⟩

/-- C5. Malformed-content rejection: when the file at the cleaned path opens
and the decode returns an error `e`, `Load` does not return nil: it returns
the error with text `decode <cleaned path>: <e>` that unwraps to `e`, so
`errors.Is` finds `e` and `errors.As` finds whatever it finds in `e` (for a
target type other than that of the wrapper itself). For `tomlio` the decode is
`toml.DecodeFile`, and the same holds for the error it returns. -/
theorem load_decode_error {T : Type} (fp : Filepath) (c : Codec T) (lib : TomlLib T) (fs : FS)
    (path : String) (cfg cfg' : T) (data : Bytes) (e : GoError)
    (hfile : fs.files (fp.Clean path) = some data)
    (hdec : c.Decode data cfg = (cfg', some e)) :
    (∃ err, (jsonio.Load fp c fs path cfg).err = some err
        ∧ err.Error = "decode " ++ fp.Clean path ++ ": " ++ e.Error
        ∧ err.Unwrap = some e ∧ errorsIs err e = true
        ∧ ∀ typ, typ ≠ "*fmt.wrapError" → errorsAs err typ = errorsAs e typ)
    ∧ (∃ err, (yamlio.Load fp c fs path cfg).err = some err
        ∧ err.Error = "decode " ++ fp.Clean path ++ ": " ++ e.Error
        ∧ err.Unwrap = some e ∧ errorsIs err e = true
        ∧ ∀ typ, typ ≠ "*fmt.wrapError" → errorsAs err typ = errorsAs e typ)
    ∧ (∀ et, (lib.DecodeFile fs (fp.Clean path) cfg).err = some et →
        ∃ err, (tomlio.Load fp lib fs path cfg).err = some err
          ∧ err.Error = "decode " ++ fp.Clean path ++ ": " ++ et.Error
          ∧ err.Unwrap = some et ∧ errorsIs err et = true
          ∧ ∀ typ, typ ≠ "*fmt.wrapError" → errorsAs err typ = errorsAs et typ) := by
  refine ⟨?_, ?_, ?_⟩
  · refine ⟨errorfW ("decode " ++ fp.Clean path) e, ?_, rfl, rfl, errorsIs_errorfW_self _ _,
      fun typ h => errorsAs_errorfW _ _ typ h⟩
    rw [jsonio_Load_present fp c fs path cfg data hfile, hdec]; rfl
  · refine ⟨errorfW ("decode " ++ fp.Clean path) e, ?_, rfl, rfl, errorsIs_errorfW_self _ _,
      fun typ h => errorsAs_errorfW _ _ typ h⟩
    rw [yamlio_Load_present fp c fs path cfg data hfile, hdec]; rfl
  · intro et het
    refine ⟨errorfW ("decode " ++ fp.Clean path) et, ?_, rfl, rfl, errorsIs_errorfW_self _ _,
      fun typ h => errorsAs_errorfW _ _ typ h⟩
    rw [tomlio_Load_decode_error fp lib fs path cfg et het]

/-- Witness of C5: an empty `config.json` is malformed for the small format,
and `errors.As` reaches the syntax error of the codec. -/
theorem load_decode_error_witness :
    ∃ err, (jsonio.Load testFilepath testCodec malformedFS "config.json" exampleConfig).err
        = some err
      ∧ err.Error = "decode config.json: unexpected end of input"
      ∧ errorsAs err "*json.SyntaxError"
          = some (.codecError "*json.SyntaxError" "unexpected end of input") := by
  obtain ⟨⟨err, h1, h2, _, _, h5⟩, _⟩ :=
    load_decode_error testFilepath testCodec testToml malformedFS "config.json" exampleConfig
      exampleConfig [] (.codecError "*json.SyntaxError" "unexpected end of input") rfl rfl
  refine ⟨err, h1, ?_, ?_⟩
  · rw [h2]; decide
  · rw [h5 _ (by decide)]; decide

/-- C4. Unknown-key rejection: when `toml.DecodeFile` itself succeeds,
`tomlio.Load` returns a non-nil error for which
`errors.Is(err, ErrUnknownKeys)` holds exactly when the list of undecoded keys is
non-empty, and returns nil exactly when that list is empty. When the decoder
reports the one key `extra`, the error is `unknown keys: extra`. -/
theorem load_unknown_keys {T : Type} (fp : Filepath) (lib : TomlLib T) (fs : FS)
    (path : String) (cfg : T)
    (hdec : (lib.DecodeFile fs (fp.Clean path) cfg).err = none) :
    ((∃ err, (tomlio.Load fp lib fs path cfg).err = some err
          ∧ errorsIs err tomlio.ErrUnknownKeys = true)
        ↔ (lib.DecodeFile fs (fp.Clean path) cfg).md.Undecoded ≠ [])
    ∧ ((tomlio.Load fp lib fs path cfg).err = none
        ↔ (lib.DecodeFile fs (fp.Clean path) cfg).md.Undecoded = [])
    ∧ ((lib.DecodeFile fs (fp.Clean path) cfg).md.Undecoded = [["extra"]] →
        (tomlio.Load fp lib fs path cfg).err
          = some (.wrapError "unknown keys: extra" tomlio.ErrUnknownKeys)) := by
  rw [tomlio_Load_decoded fp lib fs path cfg hdec]
  refine ⟨?_, ?_, ?_⟩
  · by_cases hu : (lib.DecodeFile fs (fp.Clean path) cfg).md.Undecoded = []
    · simp [hu]
    · simp only [hu, if_false, ne_eq, not_false_eq_true, iff_true]
      exact ⟨_, rfl, errorsIs_unknownKeys _⟩
  · by_cases hu : (lib.DecodeFile fs (fp.Clean path) cfg).md.Undecoded = [] <;> simp [hu]
  · intro hu
    simp only [hu]
    decide

/-- Witness of C4 with the schema `{name, port}` of the tests: a document
that also holds `extra` is rejected with `unknown keys: extra`, a document
without extra keys loads. -/
theorem load_unknown_keys_witness :
    (tomlio.Load testFilepath testToml extraKeyFS "config.toml" exampleConfig).err
        = some (.wrapError "unknown keys: extra" tomlio.ErrUnknownKeys)
    ∧ (tomlio.Load testFilepath testToml plainFS "config.toml" exampleConfig).err = none
    ∧ (tomlio.Load testFilepath testToml plainFS "config.toml" exampleConfig).cfg
        = ⟨"ex", 8080⟩ :=
  ⟨(load_unknown_keys testFilepath testToml extraKeyFS "config.toml" exampleConfig rfl).2.2 rfl,
    by decide, by decide⟩

/-- C10. `tomlio.Load` is not atomic on the caller's value: whenever it returns
an error for which `errors.Is(err, ErrUnknownKeys)` holds, `*cfg` holds what
`toml.DecodeFile` decoded into it: the check of the undecoded keys runs after
the decode has completed without error and nothing restores the value. (The
only other way to such an error is a `DecodeFile` that itself returns an error
matching `ErrUnknownKeys`, and `*cfg` is then what that call left too.) -/
theorem load_unknown_keys_after_decode {T : Type} (fp : Filepath) (lib : TomlLib T) (fs : FS)
    (path : String) (cfg : T) (err : GoError)
    (herr : (tomlio.Load fp lib fs path cfg).err = some err)
    (his : errorsIs err tomlio.ErrUnknownKeys = true) :
    (tomlio.Load fp lib fs path cfg).cfg = (lib.DecodeFile fs (fp.Clean path) cfg).cfg
    ∧ (((lib.DecodeFile fs (fp.Clean path) cfg).err = none
        ∧ (lib.DecodeFile fs (fp.Clean path) cfg).md.Undecoded ≠ []
        ∧ err = .wrapError
            ("unknown keys: " ++ tomlio.formatKeys (lib.DecodeFile fs (fp.Clean path) cfg).md.Undecoded)
            tomlio.ErrUnknownKeys)
      ∨ (∃ e, (lib.DecodeFile fs (fp.Clean path) cfg).err = some e
        ∧ errorsIs e tomlio.ErrUnknownKeys = true)) := by
  refine ⟨tomlio_Load_cfg fp lib fs path cfg, ?_⟩
  cases hdec : (lib.DecodeFile fs (fp.Clean path) cfg).err with
  | none =>
      left
      rw [tomlio_Load_decoded fp lib fs path cfg hdec] at herr
      by_cases hu : (lib.DecodeFile fs (fp.Clean path) cfg).md.Undecoded = []
      · simp [hu] at herr
      · simp only [hu, if_false, Option.some.injEq] at herr
        exact ⟨rfl, hu, herr.symm⟩
  | some e =>
      right
      rw [tomlio_Load_decode_error fp lib fs path cfg e hdec] at herr
      simp only [Option.some.injEq] at herr
      subst herr
      refine ⟨e, rfl, ?_⟩
      have h := his
      rw [errorfW, errorsIs_wrapError] at h
      simpa [tomlio.ErrUnknownKeys] using h

/-- Witness of C10: loading the document with the extra key into an empty
value returns the error and leaves the decoded name and port in the value. -/
theorem load_unknown_keys_after_decode_witness :
    (tomlio.Load testFilepath testToml extraKeyFS "config.toml" ⟨"", 0⟩).err
        = some (.wrapError "unknown keys: extra" tomlio.ErrUnknownKeys)
    ∧ (tomlio.Load testFilepath testToml extraKeyFS "config.toml" ⟨"", 0⟩).cfg = ⟨"ex", 8080⟩ :=
  ⟨by decide,
    (load_unknown_keys_after_decode testFilepath testToml extraKeyFS "config.toml" ⟨"", 0⟩
      (.wrapError "unknown keys: extra" tomlio.ErrUnknownKeys) (by decide) (by decide)).1.trans
      (by decide)⟩

/-- C9. The message of unknown keys: `formatKeys` joins the segments of each
key with `.` and the keys with `, `, one entry for each key of the list and in
the order of the list (which is not sorted); the empty list gives the empty
string; and the text of the error that `tomlio.Load` returns for the undecoded
keys is `unknown keys: ` followed by `formatKeys` of them. -/
theorem formatKeys_message {T : Type} (fp : Filepath) (lib : TomlLib T) (fs : FS)
    (path : String) (cfg : T) (keys : List Key) :
    tomlio.formatKeys keys = ", ".intercalate (keys.map (fun k => ".".intercalate k))
    ∧ tomlio.formatKeys [] = ""
    ∧ (∀ k, tomlio.formatKeys [k] = ".".intercalate k)
    ∧ (∀ k k' ks, tomlio.formatKeys (k :: k' :: ks)
        = ".".intercalate k ++ ", " ++ tomlio.formatKeys (k' :: ks))
    ∧ tomlio.formatKeys [["table", "subtable", "field"]] = "table.subtable.field"
    ∧ tomlio.formatKeys [["b"], ["a", "x"]] = "b, a.x"
    ∧ ((lib.DecodeFile fs (fp.Clean path) cfg).err = none →
        (lib.DecodeFile fs (fp.Clean path) cfg).md.Undecoded = keys → keys ≠ [] →
        ∃ err, (tomlio.Load fp lib fs path cfg).err = some err
          ∧ err.Error = "unknown keys: " ++ tomlio.formatKeys keys) := by
  refine ⟨formatKeys_eq keys, rfl, ?_, ?_, by decide, by decide, ?_⟩
  · intro k
    rw [formatKeys_eq]; rfl
  · intro k k' ks
    rw [formatKeys_eq, formatKeys_eq, List.map_cons, List.map_cons, intercalate_cons_cons]
  · intro hdec hu hne
    rw [tomlio_Load_decoded fp lib fs path cfg hdec, hu]
    simp only [hne, if_false]
    exact ⟨_, rfl, rfl⟩

/-- Witness of C9 on the document with the extra key. -/
theorem formatKeys_message_witness :
    ∃ err, (tomlio.Load testFilepath testToml extraKeyFS "config.toml" exampleConfig).err
        = some err
      ∧ err.Error = "unknown keys: " ++ tomlio.formatKeys [["extra"]] :=
  (formatKeys_message testFilepath testToml extraKeyFS "config.toml" exampleConfig
    [["extra"]]).2.2.2.2.2.2 rfl rfl (by decide)

/-! ## Save: the write protocol -/

/-- C2, as stated, fails when the temp name differs from the path and still
denotes the same file. For the path `1.json.tmp`, absent before the call, the
directory is `.` and `os.CreateTemp` creates `./1.json.tmp`: the names differ,
and the creation of the temp file, which is no rename, puts an empty file at
the path, which is neither what was there before nor the encoding of the
value. -/
theorem save_temp_alias_writes_target :
    "./1.json.tmp" ≠ testFilepath.Clean "1.json.tmp"
    ∧ emptyFS.files "1.json.tmp" = none
    ∧ ((jsonio.Save testFilepath testCodec (allSucceed "./1.json.tmp") emptyFS "1.json.tmp"
          exampleConfig).run.trace[1]?).map
        (fun st => (st.ev, st.pre.files "1.json.tmp", st.post.files "1.json.tmp"))
        = some (Event.createTemp "." "*.json.tmp" (some "./1.json.tmp"), none, some [])
    ∧ testCodec.Encode exampleConfig ≠ [] := by
  refine ⟨by decide, by decide, by decide, by decide⟩

/-- C2, amended. No partial write at the target: for every outcome of the
calls of `Save`, when the temp file's name does not denote the file that the
cleaned path denotes, only a successful rename changes what is stored at the
path and it leaves the complete encoding of the value there; after every
prefix of the steps the file at the path is its prior content (or still
absent) or that complete encoding; and when `Save` returns an error the file
at the path is what it was before the call. This holds for `jsonio`, `yamlio`
and `tomlio`. -/
theorem save_no_partial_write {T : Type} (fp : Filepath) (c : Codec T) (lib : TomlLib T)
    (o : Outcomes) (fs : FS) (path : String) (cfg : T)
    (hne : ∀ tmp, o.createTemp = .ok tmp → fs.resolve tmp ≠ fs.resolve (fp.Clean path)) :
    AtomicAt (jsonio.Save fp c o fs path cfg) fs (fp.Clean path) (c.Encode cfg)
    ∧ AtomicAt (yamlio.Save fp c o fs path cfg) fs (fp.Clean path) (c.Encode cfg)
    ∧ AtomicAt (tomlio.Save fp lib o fs path cfg) fs (fp.Clean path) (lib.Encode cfg) :=
  ⟨saveWith_atomicAt fp c.Encode _ _ o fs path cfg hne,
    saveWith_atomicAt fp c.Encode _ _ o fs path cfg hne,
    saveWith_atomicAt fp lib.Encode _ _ o fs path cfg hne⟩

/-- Witness of C2: a `Save` whose rename fails over an earlier document. -/
theorem save_no_partial_write_witness :
    AtomicAt
      (jsonio.Save testFilepath testCodec (renameFails "d/1.json.tmp")
        (emptyFS.put "d/config.json" [1, 102]) "d/config.json" exampleConfig)
      (emptyFS.put "d/config.json" [1, 102]) "d/config.json" (testCodec.Encode exampleConfig) :=
  (save_no_partial_write testFilepath testCodec testToml (renameFails "d/1.json.tmp")
    (emptyFS.put "d/config.json" [1, 102]) "d/config.json" exampleConfig
    (by intro tmp h; cases h; decide)).1

/-- C7. Sync before rename: in every execution of `Save` (`jsonio`, `yamlio`,
`tomlio`) a rename is issued only right after the successful encode, sync and
close, in this order, of the temp file that the call created; that temp file
is the source of the rename and the cleaned path its destination; at most one
rename is issued; and after a failed encode, sync or close none is. -/
theorem save_sync_before_rename {T : Type} (fp : Filepath) (c : Codec T) (lib : TomlLib T)
    (o : Outcomes) (fs : FS) (path : String) (cfg : T) :
    SyncBeforeRename (jsonio.Save fp c o fs path cfg).events (fp.Clean path)
    ∧ SyncBeforeRename (yamlio.Save fp c o fs path cfg).events (fp.Clean path)
    ∧ SyncBeforeRename (tomlio.Save fp lib o fs path cfg).events (fp.Clean path) :=
  ⟨saveWith_syncBeforeRename fp c.Encode _ _ o fs path cfg,
    saveWith_syncBeforeRename fp c.Encode _ _ o fs path cfg,
    saveWith_syncBeforeRename fp lib.Encode _ _ o fs path cfg⟩

/-- C8. Best-effort directory sync: `Save` returns nil exactly when the
directory creation, the temp creation, the encode, the sync, the close and
the rename all succeed, whatever the outcomes of opening, syncing and closing
the directory; changing these three outcomes never changes the result. -/
theorem save_dir_sync_best_effort {T : Type} (fp : Filepath) (c : Codec T) (lib : TomlLib T)
    (o : Outcomes) (fs : FS) (path : String) (cfg : T) :
    DirSyncBestEffort (fun o => jsonio.Save fp c o fs path cfg) o
    ∧ DirSyncBestEffort (fun o => yamlio.Save fp c o fs path cfg) o
    ∧ DirSyncBestEffort (fun o => tomlio.Save fp lib o fs path cfg) o :=
  ⟨saveWith_dirSync fp c.Encode _ _ o fs path cfg,
    saveWith_dirSync fp c.Encode _ _ o fs path cfg,
    saveWith_dirSync fp lib.Encode _ _ o fs path cfg⟩

/-- C6, as stated, fails when the temp file is the target. First, the path
`d/1.json.tmp` is absent, `os.CreateTemp` creates exactly that name, every call
succeeds, `Save` returns nil, and the temp name still exists afterwards (it is
the saved document). Second, the same happens with a temp name that differs
from the path: for the path `1.json.tmp` the directory is `.`, `os.CreateTemp`
creates `./1.json.tmp`, the rename of a file onto itself does nothing, and the
temp name still exists after `Save` returned nil. -/
theorem save_temp_name_is_target :
    emptyFS.files "d/1.json.tmp" = none
    ∧ Event.createTemp "d" "*.json.tmp" (some "d/1.json.tmp")
        ∈ (jsonio.Save testFilepath testCodec (allSucceed "d/1.json.tmp") emptyFS
            "d/1.json.tmp" exampleConfig).events
    ∧ (jsonio.Save testFilepath testCodec (allSucceed "d/1.json.tmp") emptyFS
        "d/1.json.tmp" exampleConfig).err = none
    ∧ (jsonio.Save testFilepath testCodec (allSucceed "d/1.json.tmp") emptyFS
        "d/1.json.tmp" exampleConfig).fs.files "d/1.json.tmp"
        = some (testCodec.Encode exampleConfig)
    ∧ "./1.json.tmp" ≠ testFilepath.Clean "1.json.tmp"
    ∧ emptyFS.files "1.json.tmp" = none
    ∧ Event.createTemp "." "*.json.tmp" (some "./1.json.tmp")
        ∈ (jsonio.Save testFilepath testCodec (allSucceed "./1.json.tmp") emptyFS
            "1.json.tmp" exampleConfig).events
    ∧ (jsonio.Save testFilepath testCodec (allSucceed "./1.json.tmp") emptyFS
        "1.json.tmp" exampleConfig).err = none
    ∧ (jsonio.Save testFilepath testCodec (allSucceed "./1.json.tmp") emptyFS
        "1.json.tmp" exampleConfig).fs.files "./1.json.tmp"
        = some (testCodec.Encode exampleConfig) := by
  refine ⟨rfl, by decide, by decide, by decide, by decide, by decide, by decide, by decide,
    by decide⟩

/-- C6, amended. The life of the temp file: every call of `Save` issues at
most one `os.CreateTemp`, and none when the directory creation fails; when a
temp file was created and `Save` fails, a remove of that temp path is issued
before `Save` returns, after closing the handle when it is still open (the
handle is closed exactly once before the remove, and right before it when the
failure is an encode or a sync); when `Save` succeeds the temp name is gone,
provided it does not denote the file that the cleaned target path denotes;
and when `Save` fails and the remove succeeds the temp name is gone. -/
theorem save_temp_lifecycle {T : Type} (fp : Filepath) (c : Codec T) (lib : TomlLib T)
    (o : Outcomes) (fs : FS) (path : String) (cfg : T) :
    TempLifecycle o fs (jsonio.Save fp c o fs path cfg) (fp.Clean path)
    ∧ TempLifecycle o fs (yamlio.Save fp c o fs path cfg) (fp.Clean path)
    ∧ TempLifecycle o fs (tomlio.Save fp lib o fs path cfg) (fp.Clean path) :=
  ⟨saveWith_tempLifecycle fp c.Encode _ _ o fs path cfg,
    saveWith_tempLifecycle fp c.Encode _ _ o fs path cfg,
    saveWith_tempLifecycle fp lib.Encode _ _ o fs path cfg⟩

/-- Witness of C6: after a `Save` that succeeds, the temp file is gone, its
name denoting another file than the target; after a `Save` whose rename
fails, the temp file is gone too. -/
theorem save_temp_lifecycle_witness :
    (jsonio.Save testFilepath testCodec (allSucceed "d/1.json.tmp") emptyFS "d/config.json"
        exampleConfig).fs.files "d/1.json.tmp" = none
    ∧ (yamlio.Save testFilepath testCodec (renameFails "d/1.yml.tmp")
        (emptyFS.put "d/config.yaml" [1, 102]) "d/config.yaml" exampleConfig).fs.files
      "d/1.yml.tmp" = none :=
  ⟨(save_temp_lifecycle testFilepath testCodec testToml (allSucceed "d/1.json.tmp") emptyFS
      "d/config.json" exampleConfig).1.2.2.2.1
      "d" "*.json.tmp" "d/1.json.tmp" (by decide) (by decide) (by decide),
    (save_temp_lifecycle testFilepath testCodec testToml (renameFails "d/1.yml.tmp")
      (emptyFS.put "d/config.yaml" [1, 102]) "d/config.yaml" exampleConfig).2.1.2.2.2.2
      "d" "*.yml.tmp" "d/1.yml.tmp" (by decide) (by decide) rfl⟩

/-- C1, as stated, fails for `tomlio`: the marshaller of the type writes a key
that is no field of the struct; `Save` returns nil, the decode of the saved
document restores the value without error, and `Load` still returns
`ErrUnknownKeys`. -/
theorem tomlio_round_trip_unknown_keys :
    (tomlio.Save testFilepath stampedToml (allSucceed "d/1.toml.tmp") emptyFS "d/config.toml"
        exampleConfig).err = none
    ∧ (∀ (fs : FS) (p : String) (out0 : testConfig),
        fs.files p = some (stampedToml.Encode exampleConfig) →
        (stampedToml.DecodeFile fs p out0).cfg = exampleConfig
          ∧ (stampedToml.DecodeFile fs p out0).err = none)
    ∧ (tomlio.Load testFilepath stampedToml
        (tomlio.Save testFilepath stampedToml (allSucceed "d/1.toml.tmp") emptyFS "d/config.toml"
          exampleConfig).fs "d/config.toml" ⟨"", 0⟩).err
        = some (.wrapError "unknown keys: extra" tomlio.ErrUnknownKeys) := by
  refine ⟨by decide, ?_, by decide⟩
  intro fs p out0 h
  have he : stampedToml.Encode exampleConfig = [8080, 1, 101, 120, 97, 109, 112, 108, 101] := by
    decide
  rw [he] at h
  simp only [stampedToml, testDecodeFile, h]
  exact ⟨by decide, trivial⟩

/-- C1, amended. Round trip: for every value `v`, every path and every prior
filesystem (the file absent, or holding an earlier saved value), if
`Save(path, v)` returns nil then the `Load(path, &out)` that follows returns nil
and `out == v`, assuming that the codec's decode inverts its encode on `v` and,
for `tomlio`, that the decoder also reports no undecoded key for the document
of `v`. In particular the `Load` after `Save(path, v1); Save(path, v)` gives `v`. -/
theorem save_load_round_trip {T : Type} (fp : Filepath) (c : Codec T) (lib : TomlLib T)
    (o : Outcomes) (fs : FS) (path : String) (v out0 : T)
    (hinv : c.Decode (c.Encode v) out0 = (v, none))
    (htoml : ∀ fs', fs'.files (fp.Clean path) = some (lib.Encode v) →
      (lib.DecodeFile fs' (fp.Clean path) out0).cfg = v
        ∧ (lib.DecodeFile fs' (fp.Clean path) out0).err = none
        ∧ (lib.DecodeFile fs' (fp.Clean path) out0).md.Undecoded = []) :
    ((jsonio.Save fp c o fs path v).err = none →
        jsonio.Load fp c (jsonio.Save fp c o fs path v).fs path out0 = ⟨v, none⟩)
    ∧ ((yamlio.Save fp c o fs path v).err = none →
        yamlio.Load fp c (yamlio.Save fp c o fs path v).fs path out0 = ⟨v, none⟩)
    ∧ ((tomlio.Save fp lib o fs path v).err = none →
        tomlio.Load fp lib (tomlio.Save fp lib o fs path v).fs path out0 = ⟨v, none⟩)
    ∧ (∀ o1 v1, (jsonio.Save fp c o (jsonio.Save fp c o1 fs path v1).fs path v).err = none →
        jsonio.Load fp c (jsonio.Save fp c o (jsonio.Save fp c o1 fs path v1).fs path v).fs
          path out0 = ⟨v, none⟩)
    ∧ (∀ o1 v1, (yamlio.Save fp c o (yamlio.Save fp c o1 fs path v1).fs path v).err = none →
        yamlio.Load fp c (yamlio.Save fp c o (yamlio.Save fp c o1 fs path v1).fs path v).fs
          path out0 = ⟨v, none⟩)
    ∧ (∀ o1 v1, (tomlio.Save fp lib o (tomlio.Save fp lib o1 fs path v1).fs path v).err = none →
        tomlio.Load fp lib (tomlio.Save fp lib o (tomlio.Save fp lib o1 fs path v1).fs path v).fs
          path out0 = ⟨v, none⟩) := by
  have hj : ∀ fs0, (jsonio.Save fp c o fs0 path v).err = none →
      jsonio.Load fp c (jsonio.Save fp c o fs0 path v).fs path out0 = ⟨v, none⟩ := by
    intro fs0 h
    have hc : (jsonio.Save fp c o fs0 path v).fs.files (fp.Clean path) = some (c.Encode v) :=
      saveWith_done_content fp c.Encode _ _ o fs0 path v h
    rw [jsonio_Load_present fp c _ path out0 _ hc, hinv]
    rfl
  have hy : ∀ fs0, (yamlio.Save fp c o fs0 path v).err = none →
      yamlio.Load fp c (yamlio.Save fp c o fs0 path v).fs path out0 = ⟨v, none⟩ := by
    intro fs0 h
    have hc : (yamlio.Save fp c o fs0 path v).fs.files (fp.Clean path) = some (c.Encode v) :=
      saveWith_done_content fp c.Encode _ _ o fs0 path v h
    rw [yamlio_Load_present fp c _ path out0 _ hc, hinv]
    rfl
  have ht : ∀ fs0, (tomlio.Save fp lib o fs0 path v).err = none →
      tomlio.Load fp lib (tomlio.Save fp lib o fs0 path v).fs path out0 = ⟨v, none⟩ := by
    intro fs0 h
    have hc : (tomlio.Save fp lib o fs0 path v).fs.files (fp.Clean path)
        = some (lib.Encode v) := saveWith_done_content fp lib.Encode _ _ o fs0 path v h
    obtain ⟨h1, h2, h3⟩ := htoml _ hc
    rw [tomlio_Load_decoded fp lib _ path out0 h2, h1, h3]
    rfl
  exact ⟨hj fs, hy fs, ht fs, fun o1 v1 => hj _, fun o1 v1 => hy _, fun o1 v1 => ht _⟩

/-- Witness of C1: the scenario of the tests, `first` then `second` saved to
the same path and `second` loaded back, in the three packages' protocol. -/
theorem save_load_round_trip_witness :
    jsonio.Load testFilepath testCodec
        (jsonio.Save testFilepath testCodec (allSucceed "d/2.json.tmp")
          (jsonio.Save testFilepath testCodec (allSucceed "d/1.json.tmp") emptyFS
            "d/config.json" ⟨"first", 1⟩).fs "d/config.json" ⟨"second", 2⟩).fs
        "d/config.json" ⟨"", 0⟩ = ⟨⟨"second", 2⟩, none⟩ :=
  (save_load_round_trip testFilepath testCodec testToml (allSucceed "d/2.json.tmp") emptyFS
    "d/config.json" ⟨"second", 2⟩ ⟨"", 0⟩ (by decide)
    (by
      intro fs' h
      have he : testToml.Encode ⟨"second", 2⟩ = [2, 0, 115, 101, 99, 111, 110, 100] := by decide
      rw [he] at h
      simp only [testToml, testDecodeFile, h]
      exact ⟨by decide, trivial, rfl⟩)).2.2.2.1
    (allSucceed "d/1.json.tmp") ⟨"first", 1⟩ (by decide)
